import Mathlib

set_option maxHeartbeats 1000000

/-!
Shallow embedding of `src/block_model_compression/runner.py` (the block-model
compression validator).

Files are modelled as lists of read events: each `readline` either yields the
next line (including its trailing newline, as Python's `readline` does), raises
an `OSError`, or raises some other exception; end of file is the end of the
list, where `readline` yields `""`.

Python `int` values are modelled as `Int`; Python floor division `//` is
`Int.fdiv` (floor division for all signs).  The final float division on the
success path is modelled as exact division in `Rat`; a zero denominator is
modelled as the `zeroDivisionError` outcome (Python raises `ZeroDivisionError`
there).  Uncaught-exception terminations (`IndexError`, `ZeroDivisionError`,
`ValueError` from `range` with step 0) are distinguished from the script's
explicit `sys.exit` calls, which carry the exit codes from the source.
-/

/-- Every way the runner terminates other than success, tagged with the data
the diagnostic message carries.  The constructors mirror the `sys.exit` call
sites of `runner.py`; the last three model uncaught Python exceptions. -/
inductive Err where
  | headerUnexpectedEOF (lineCount : Nat)
  | headerMissingHash (lineCount : Nat) (line : String)
  | headerValueError (lineCount : Nat) (line : String)
  | headerWrongCount (lineCount : Nat) (line : String)
  | readOSError (lineCount : Nat)
  | readOtherError (lineCount : Nat)
  | formatError (lineCount : Nat) (line : String)
  | valueError (lineCount : Nat) (line : String)
  | negativeSize (lineCount : Nat) (line : String)
  | blockTooLarge (lineCount : Nat) (line : String)
  | wrongX (lineCount : Nat) (line : String)
  | wrongY (lineCount : Nat) (line : String)
  | wrongZ (lineCount : Nat) (line : String)
  | unitSizedOnly (lineCount : Nat) (line : String)
  | earlierChunk (lineCount : Nat) (line : String)
  | crossesParentX (lineCount : Nat) (line : String)
  | crossesParentY (lineCount : Nat) (line : String)
  | crossesParentZ (lineCount : Nat) (line : String)
  | candUnexpectedEOF (lineCount : Nat)
  | moreBlocksThan (srcLine : Nat)
  | blockMismatch (x y z : Int)
  | domainMismatch (x y z : Int) (got : String) (srcLine : Nat) (expected : String)
  | itemNotFound
  | badExtension
  | inputNotFound
  | baselineFailed
  | itemFailed
  | indexError
  | zeroDivisionError
  | rangeValueError
  deriving DecidableEq, Repr

/-- One `readline` result in a file stream. -/
inductive ReadEvent where
  | line (s : String)
  | ioError
  | otherError
  deriving DecidableEq, Repr

/-- The single-quote character; written via its code point to keep string
literals free of quote characters. -/
def squote : Char := Char.ofNat 39

/-- The double-quote character. -/
def dquote : Char := Char.ofNat 34

/-- Whitespace stripped by Python `int()` before parsing. -/
def isPySpace (c : Char) : Bool :=
  c = ' ' || c = '\t' || c = '\n' || c = '\r' || c = Char.ofNat 11 || c = Char.ofNat 12

/-- Strip `isPySpace` characters from both ends. -/
def pyTrimSpace (s : List Char) : List Char :=
  ((s.dropWhile isPySpace).reverse.dropWhile isPySpace).reverse

/-- Value of a nonempty all-digit character list, else `none`. -/
def digitsVal (cs : List Char) : Option Nat :=
  if cs.isEmpty then none
  else cs.foldl
    (fun acc c =>
      match acc with
      | none => none
      | some n => if c.isDigit then some (n * 10 + (c.toNat - 48)) else none)
    (some 0)

/-- Python `int(s)`: strip whitespace, optional sign, decimal digits.
(Underscore digit separators are not modelled.) -/
def pyInt (s : List Char) : Option Int :=
  match pyTrimSpace s with
  | '+' :: ds => (digitsVal ds).map (fun n => (n : Int))
  | '-' :: ds => (digitsVal ds).map (fun n => -(n : Int))
  | ds => (digitsVal ds).map (fun n => (n : Int))

/-- Python `s.split(",")` on character lists. -/
def splitComma : List Char → List (List Char)
  | [] => [[]]
  | c :: t =>
    if c = ',' then [] :: splitComma t
    else
      match splitComma t with
      | [] => [[c]]
      | h :: r => (c :: h) :: r

/-- Python `line.rfind(",")` together with the two slices
`line[0:last_comma]` and `line[last_comma+1:]`; `none` when the line has no
comma (`rfind` returns `-1`). -/
def splitAtLastComma (s : List Char) : Option (List Char × List Char) :=
  let r := s.reverse
  match r.dropWhile (fun c => c ≠ ',') with
  | [] => none
  | _ :: beforeRev => some (beforeRev.reverse, (r.takeWhile (fun c => c ≠ ',')).reverse)

/-- The character set of Python `strip("' \n\r")` in `runner.py`: single
quote, space, LF, CR.  Note: no double quote, no tab. -/
def isStripChar (c : Char) : Bool :=
  c = squote || c = ' ' || c = '\n' || c = '\r'

/-- Python `s.strip("' \n\r")`: remove `isStripChar` characters from both
ends. -/
def pyStrip (s : List Char) : List Char :=
  ((s.dropWhile isStripChar).reverse.dropWhile isStripChar).reverse

/-- A parsed data line `x,y,z,sx,sy,sz,domain` (reference or candidate). -/
structure Rec where
  x : Int
  y : Int
  z : Int
  sx : Int
  sy : Int
  sz : Int
  domain : String
  deriving DecidableEq, Repr

/-- `parse_line` of `runner.py` (lines 138-170): split off the domain at the
last comma, strip it, parse the leading comma-separated integers, reject
negative sizes and sizes exceeding the given parent sizes.  List indexing is
modelled lazily to mirror Python's left-to-right short-circuit evaluation of
`ints[3] < 0 or ints[4] < 0 or ints[5] < 0` (a short list raises `IndexError`
only when the corresponding index is actually evaluated). -/
def parse_line (line : String) (line_count : Nat)
    (parent_size_x parent_size_y parent_size_z : Int) : Except Err Rec :=
  match splitAtLastComma line.toList with
  | none => .error (.formatError line_count line)
  | some (intPart, domainPart) =>
    let domain := String.mk (pyStrip domainPart)
    match (splitComma intPart).mapM pyInt with
    | none => .error (.valueError line_count line)
    | some ints =>
      match ints[3]? with
      | none => .error .indexError
      | some s3 =>
        if s3 < 0 then .error (.negativeSize line_count line)
        else
          match ints[4]? with
          | none => .error .indexError
          | some s4 =>
            if s4 < 0 then .error (.negativeSize line_count line)
            else
              match ints[5]? with
              | none => .error .indexError
              | some s5 =>
                if s5 < 0 then .error (.negativeSize line_count line)
                else if s3 > parent_size_x || s4 > parent_size_y || s5 > parent_size_z then
                  .error (.blockTooLarge line_count line)
                else
                  match ints with
                  | xv :: yv :: zv :: _ => .ok ⟨xv, yv, zv, s3, s4, s5, domain⟩
                  | _ => .error .indexError

/-- `parse_line1_of_file1` of `runner.py` (lines 34-58): the header line must
start with `#` and continue with exactly six comma-separated integers. -/
def parse_line1_of_file1 (line : String) (line_count : Nat) : Except Err (List Int) :=
  match line.toList with
  | [] => .error .indexError
  | c :: rest =>
    if c ≠ '#' then .error (.headerMissingHash line_count line)
    else
      match (splitComma rest).mapM pyInt with
      | none => .error (.headerValueError line_count line)
      | some ints =>
        if ints.length ≠ 6 then .error (.headerWrongCount line_count line)
        else .ok ints

/-- `get_header_info_of_file1` of `runner.py` (lines 12-32): one raw
`readline`, fatal on end of file (exit 100) and on read errors (200/300),
then `parse_line1_of_file1`. -/
def get_header_info_of_file1 (file1 : List ReadEvent) (line_count : Nat) :
    Except Err (List Int × List ReadEvent) :=
  match file1 with
  | [] => .error (.headerUnexpectedEOF line_count)
  | .ioError :: _ => .error (.readOSError line_count)
  | .otherError :: _ => .error (.readOtherError line_count)
  | .line l :: rest =>
    if l = "" then .error (.headerUnexpectedEOF line_count)
    else (parse_line1_of_file1 l line_count).map (fun ints => (ints, rest))

/-- First characters that make `read_next_line_of_input` skip a line:
comment lines and blank lines. -/
def isSkipChar (c : Char) : Bool :=
  c = '#' || c = '\n' || c = '\r'

/-- `read_next_line_of_input` of `runner.py` (lines 60-84): read lines,
incrementing the line count, skipping comment and blank lines, returning
`""` at end of file; read failures exit 200/300 reporting the count before
the failed increment. -/
def read_next_line_of_input : List ReadEvent → Nat → Except Err (String × Nat × List ReadEvent)
  | [], line_count => .ok ("", line_count + 1, [])
  | .ioError :: _, line_count => .error (.readOSError line_count)
  | .otherError :: _, line_count => .error (.readOtherError line_count)
  | .line l :: rest, line_count =>
    match l.toList with
    | [] => .ok (l, line_count + 1, rest)
    | c :: _ =>
      if isSkipChar c then read_next_line_of_input rest (line_count + 1)
      else .ok (l, line_count + 1, rest)

/-- Per-domain tally update: Python `domains[domain] = domains.get(domain, 0) + 1`
on an insertion-ordered association list. -/
def updateCount : List (String × Nat) → String → List (String × Nat)
  | [], d => [(d, 1)]
  | (k, v) :: rest, d =>
    if k = d then (k, v + 1) :: rest else (k, v) :: updateCount rest d

/-- `parse_and_check_line_of_file1` of `runner.py` (lines 94-136).  This is
the only place with the `unit sized blocks only` check; note that no call
site of it exists in `runner.py` (the module-level code parses reference
lines with `parse_line` instead). -/
def parse_and_check_line_of_file1 (x y z : Int) (line : String) (line_count : Nat)
    (domains : List (String × Nat)) : Except Err (Rec × List (String × Nat)) :=
  match splitAtLastComma line.toList with
  | none => .error (.formatError line_count line)
  | some (intPart, domainPart) =>
    let domain := String.mk (pyStrip domainPart)
    let domains := updateCount domains domain
    match (splitComma intPart).mapM pyInt with
    | none => .error (.valueError line_count line)
    | some ints =>
      match ints[0]? with
      | none => .error .indexError
      | some x0 =>
        if x0 ≠ x then .error (.wrongX line_count line)
        else
          match ints[1]? with
          | none => .error .indexError
          | some y0 =>
            if y0 ≠ y then .error (.wrongY line_count line)
            else
              match ints[2]? with
              | none => .error .indexError
              | some z0 =>
                if z0 ≠ z then .error (.wrongZ line_count line)
                else
                  match ints[3]? with
                  | none => .error .indexError
                  | some s3 =>
                    if s3 ≠ 1 then .error (.unitSizedOnly line_count line)
                    else
                      match ints[4]? with
                      | none => .error .indexError
                      | some s4 =>
                        if s4 ≠ 1 then .error (.unitSizedOnly line_count line)
                        else
                          match ints[5]? with
                          | none => .error .indexError
                          | some s5 =>
                            if s5 ≠ 1 then .error (.unitSizedOnly line_count line)
                            else .ok (⟨x0, y0, z0, s3, s4, s5, domain⟩, domains)

/-- One exploded unit sub-block `[x2+sx, y2+sy, z2+sz, domain, line_count_f2]`
as appended to `chunk_list` (runner.py line 378). -/
structure SubBlock where
  x : Int
  y : Int
  z : Int
  domain : String
  srcLine : Nat
  deriving DecidableEq, Repr

/-- The explosion loops of runner.py lines 375-378: enumerate the box in
ascending `(sz, sy, sx)` order. -/
def explodeBlock (r : Rec) (lc : Nat) : List SubBlock :=
  (List.range r.sz.toNat).flatMap fun (dz : Nat) =>
    (List.range r.sy.toNat).flatMap fun (dy : Nat) =>
      (List.range r.sx.toNat).map fun (dx : Nat) =>
        ⟨r.x + (dx : Int), r.y + (dy : Int), r.z + (dz : Int), r.domain, lc⟩

/-- The mutable candidate-side state of the module-level loop of runner.py:
the pending line `line_f2` (`""` once end of file was reached), its line
count, the unread rest of the candidate stream, `line_count_f2_last_chunk_end`
and `block_count_f2`. -/
structure ChunkState where
  line_f2 : String
  line_count_f2 : Nat
  file2 : List ReadEvent
  line_count_f2_last_chunk_end : Nat
  block_count_f2 : Nat
  deriving DecidableEq, Repr

/-- The inner `while True` loop of runner.py lines 333-384, with explicit
fuel for structural recursion (each recursive call consumes at least one read
event, so any fuel exceeding `file2.length` behaves identically; see
`chunkLoop`).  Checks in source order: `z2 < z`, the three parent-boundary
crossings (each Python `//` evaluation raises `ZeroDivisionError` when its
parent size is 0), the next-chunk break, then explosion and the next read,
breaking at end of file.  The fuel-exhaustion branch is unreachable from
`chunkLoop`. -/
def chunkLoopF (px py pz z : Int) :
    Nat → ChunkState → List SubBlock → Except Err (List SubBlock × ChunkState)
  | 0, _, _ => .error .indexError
  | fuel + 1, st, chunk_list =>
    match parse_line st.line_f2 st.line_count_f2 px py pz with
    | .error e => .error e
    | .ok r =>
      if r.z < z then .error (.earlierChunk st.line_count_f2 st.line_f2)
      else if px = 0 then .error .zeroDivisionError
      else if Int.fdiv r.x px ≠ Int.fdiv (r.x + r.sx - 1) px then
        .error (.crossesParentX st.line_count_f2 st.line_f2)
      else if py = 0 then .error .zeroDivisionError
      else if Int.fdiv r.y py ≠ Int.fdiv (r.y + r.sy - 1) py then
        .error (.crossesParentY st.line_count_f2 st.line_f2)
      else if pz = 0 then .error .zeroDivisionError
      else if Int.fdiv r.z pz ≠ Int.fdiv (r.z + r.sz - 1) pz then
        .error (.crossesParentZ st.line_count_f2 st.line_f2)
      else if r.z > z + pz - 1 then
        .ok (chunk_list, { st with line_count_f2_last_chunk_end := st.line_count_f2 })
      else
        let chunk_list := chunk_list ++ explodeBlock r st.line_count_f2
        let st1 : ChunkState :=
          { st with block_count_f2 := st.block_count_f2 + 1 }
        match read_next_line_of_input st1.file2 st1.line_count_f2 with
        | .error e => .error e
        | .ok (l, lc, f2) =>
          if l = "" then
            .ok (chunk_list, { st1 with line_f2 := l, line_count_f2 := lc, file2 := f2 })
          else
            chunkLoopF px py pz z fuel
              { st1 with line_f2 := l, line_count_f2 := lc, file2 := f2 } chunk_list

/-- The chunk-assembly loop with sufficient fuel. -/
def chunkLoop (px py pz z : Int) (st : ChunkState) (chunk_list : List SubBlock) :
    Except Err (List SubBlock × ChunkState) :=
  chunkLoopF px py pz z (st.file2.length + 1) st chunk_list

/-- Ascending order on the Python sort key `itemgetter(2,1,0)`, i.e.
lexicographic on `(z, y, x)`. -/
def keyLe (a b : SubBlock) : Prop :=
  a.z < b.z ∨ (a.z = b.z ∧ (a.y < b.y ∨ (a.y = b.y ∧ a.x ≤ b.x)))

instance : DecidableRel keyLe := fun a b => by unfold keyLe; infer_instance

instance : IsTotal SubBlock keyLe where
  total a b := by unfold keyLe; omega

instance : IsTrans SubBlock keyLe where
  trans a b c := by unfold keyLe; omega

/-- `chunk_list.sort(key=itemgetter(2,1,0))` (runner.py line 386).  Python's
`list.sort` is a stable sort by the key's lexicographic order; a stable sort
under a total preorder has a unique result, so it is modelled by insertion
sort (which is stable).  No comparison downstream depends on the order of
key-equal elements (they can differ only in `srcLine`, which only feeds
diagnostics). -/
def sortChunk (chunk : List SubBlock) : List SubBlock :=
  List.insertionSort keyLe chunk

/-- The per-chunk comparison loop of runner.py lines 391-426: for each sorted
sub-block pull one reference line, fail on reference end of file
(`moreBlocksThan`), parse it with parent sizes `1,1,1`, compare the
coordinate triple and then the domain. -/
def checkChunk : List SubBlock → List ReadEvent → Nat → Except Err (List ReadEvent × Nat)
  | [], f1, lc1 => .ok (f1, lc1)
  | e :: rest, f1, lc1 =>
    match read_next_line_of_input f1 lc1 with
    | .error err => .error err
    | .ok (l1, lc1a, f1a) =>
      if l1 = "" then .error (.moreBlocksThan e.srcLine)
      else
        match parse_line l1 lc1a 1 1 1 with
        | .error err => .error err
        | .ok r =>
          if e.x ≠ r.x || e.y ≠ r.y || e.z ≠ r.z then .error (.blockMismatch r.x r.y r.z)
          else if e.domain ≠ r.domain then
            .error (.domainMismatch r.x r.y r.z e.domain e.srcLine r.domain)
          else checkChunk rest f1a lc1a

/-- Python `range(start, stop, step)` as a list, for `step ≠ 0`, with fuel
(`|stop - start|` bounds the iteration count since `|step| ≥ 1`). -/
def rangeListF : Nat → Int → Int → Int → List Int
  | 0, _, _, _ => []
  | fuel + 1, start, stop, step =>
    if (0 < step ∧ start < stop) ∨ (step < 0 ∧ stop < start) then
      start :: rangeListF fuel (start + step) stop step
    else []

/-- Python `range(start, stop, step)` as a list, for `step ≠ 0`. -/
def rangeList (start stop step : Int) : List Int :=
  rangeListF (stop - start).natAbs start stop step

/-- The `for z in range(0, z_count, parent_size_z)` loop of runner.py lines
328-426: assemble the chunk for each slab start `z`, sort it, compare it
against the reference stream. -/
def runChunks (px py pz : Int) :
    List Int → ChunkState → List ReadEvent → Nat →
    Except Err (ChunkState × List ReadEvent × Nat)
  | [], st, f1, lc1 => .ok (st, f1, lc1)
  | z :: zs, st, f1, lc1 =>
    match chunkLoop px py pz z st [] with
    | .error e => .error e
    | .ok (chunk_list, st1) =>
      match checkChunk (sortChunk chunk_list) f1 lc1 with
      | .error e => .error e
      | .ok (f1a, lc1a) => runChunks px py pz zs st1 f1a lc1a

/-- The validation core of runner.py lines 302-445: read and parse the
header, read the first candidate line (exit 100 on an immediately empty
stream), run the chunk loop over `range(0, z_count, parent_size_z)` (Python
raises `ValueError` if `parent_size_z` is 0), and finally compute
`(block_count_f1 - block_count_f2) / block_count_f1` (raising
`ZeroDivisionError` when `block_count_f1` is 0).  On success the returned
rational is the compression value printed on standard output. -/
def runCore (file1 file2 : List ReadEvent) : Except Err Rat :=
  match get_header_info_of_file1 file1 1 with
  | .error e => .error e
  | .ok (ints, f1) =>
    match ints with
    | [x_count, y_count, z_count, parent_size_x, parent_size_y, parent_size_z] =>
      let block_count_f1 : Int := x_count * y_count * z_count
      match read_next_line_of_input file2 0 with
      | .error e => .error e
      | .ok (line_f2, line_count_f2, f2) =>
        if line_f2 = "" then .error (.candUnexpectedEOF line_count_f2)
        else if parent_size_z = 0 then .error .rangeValueError
        else
          match runChunks parent_size_x parent_size_y parent_size_z
              (rangeList 0 z_count parent_size_z)
              ⟨line_f2, line_count_f2, f2, 0, 0⟩ f1 1 with
          | .error e => .error e
          | .ok (st, _, _) =>
            if block_count_f1 = 0 then .error .zeroDivisionError
            else .ok (((block_count_f1 - (st.block_count_f2 : Int) : Int) : Rat) /
              ((block_count_f1 : Int) : Rat))
    | _ => .error .indexError

/-- The orchestration environment: results of the setup checks (runner.py
lines 228-244), the subprocess exit statuses (lines 246-298), and the two
streams opened for analysis (line 302). -/
structure Env where
  item_under_test_isfile : Bool
  item_endswith_py : Bool
  item_endswith_exe : Bool
  input_csv_isfile : Bool
  speed : Bool
  baseline_warmup_returncode : Int
  baseline_timed_returncode : Int
  item_returncode : Int
  file1 : List ReadEvent
  file2 : List ReadEvent

/-- The whole runner: setup checks (exits 10, 11, 12), baseline runs when
speed is requested (exit 13 on either failing run), the item under test
(exit 14 on a non-zero exit status), then the validation core. -/
def runnerMain (e : Env) : Except Err Rat :=
  if e.item_under_test_isfile = false then .error .itemNotFound
  else if (e.item_endswith_py || e.item_endswith_exe) = false then .error .badExtension
  else if e.input_csv_isfile = false then .error .inputNotFound
  else if e.speed = true ∧ e.baseline_warmup_returncode ≠ 0 then .error .baselineFailed
  else if e.speed = true ∧ e.baseline_timed_returncode ≠ 0 then .error .baselineFailed
  else if e.item_returncode ≠ 0 then .error .itemFailed
  else runCore e.file1 e.file2

/-- The argument of the `sys.exit` call producing each error, from the
source; `none` for terminations by an uncaught Python exception, which have
no `sys.exit` site. -/
def exitCode : Err → Option Nat
  | .headerUnexpectedEOF _ => some 100
  | .headerMissingHash _ _ => some 1
  | .headerValueError _ _ => some 1
  | .headerWrongCount _ _ => some 1
  | .readOSError _ => some 200
  | .readOtherError _ => some 300
  | .formatError _ _ => some 1
  | .valueError _ _ => some 1
  | .negativeSize _ _ => some 1
  | .blockTooLarge _ _ => some 1
  | .wrongX _ _ => some 1
  | .wrongY _ _ => some 1
  | .wrongZ _ _ => some 1
  | .unitSizedOnly _ _ => some 1
  | .earlierChunk _ _ => some 1
  | .crossesParentX _ _ => some 1
  | .crossesParentY _ _ => some 1
  | .crossesParentZ _ _ => some 1
  | .candUnexpectedEOF _ => some 100
  | .moreBlocksThan _ => some 1
  | .blockMismatch _ _ _ => some 1
  | .domainMismatch _ _ _ _ _ _ => some 1
  | .itemNotFound => some 10
  | .badExtension => some 11
  | .inputNotFound => some 12
  | .baselineFailed => some 13
  | .itemFailed => some 14
  | .indexError => none
  | .zeroDivisionError => none
  | .rangeValueError => none

/-- Errors modelling uncaught Python exceptions rather than `sys.exit`. -/
def Err.isCrash : Err → Bool
  | .indexError => true
  | .zeroDivisionError => true
  | .rangeValueError => true
  | _ => false

/-- Specification-side classification of errors as geometric invariant
errors (spec section 7, class (d): parent-boundary crossing and
out-of-chunk-order z). -/
def Err.isGeometricInvariant : Err → Bool
  | .earlierChunk _ _ => true
  | .crossesParentX _ _ => true
  | .crossesParentY _ _ => true
  | .crossesParentZ _ _ => true
  | _ => false

/-- Specification-side pairing condition of the Equivalence Checker: an
exploded sub-block and a reference record carry an identical coordinate
triple and an identical domain string. -/
def subMatches (e : SubBlock) (r : Rec) : Prop :=
  e.x = r.x ∧ e.y = r.y ∧ e.z = r.z ∧ e.domain = r.domain

instance : ∀ e r, Decidable (subMatches e r) := fun e r => by
  unfold subMatches; infer_instance

/-- Specification-side reader: pull `n` successive unit-block records from
the reference stream (reading with `read_next_line_of_input` and parsing
with parent sizes `1,1,1`), `none` on end of stream, a read failure, or a
parse failure. -/
def pullRecords : Nat → List ReadEvent → Nat → Option (List Rec × List ReadEvent × Nat)
  | 0, f1, lc1 => some ([], f1, lc1)
  | n + 1, f1, lc1 =>
    match read_next_line_of_input f1 lc1 with
    | .error _ => none
    | .ok (l1, lc1a, f1a) =>
      if l1 = "" then none
      else
        match parse_line l1 lc1a 1 1 1 with
        | .error _ => none
        | .ok r =>
          match pullRecords n f1a lc1a with
          | none => none
          | some (recs, f1b, lc1b) => some (r :: recs, f1b, lc1b)

/-- Length facts about `read_next_line_of_input`: it never grows the stream,
and consumes at least one event whenever it returns a nonempty line. -/
theorem read_next_length {f : List ReadEvent} {n : Nat} {l : String} {n1 : Nat}
    {f1 : List ReadEvent} (h : read_next_line_of_input f n = .ok (l, n1, f1)) :
    f1.length ≤ f.length ∧ (l ≠ "" → f1.length < f.length) := by
  induction f generalizing n with
  | nil =>
    simp only [read_next_line_of_input] at h
    cases h
    simp
  | cons ev rest ih =>
    cases ev with
    | line s =>
      rw [read_next_line_of_input] at h
      split at h
      · cases h
        refine ⟨by simp, fun hne => absurd ?_ hne⟩
        cases l
        simp_all [String.toList]
      · split at h
        · have := ih h
          exact ⟨le_trans this.1 (by simp), fun hne => lt_of_le_of_lt this.1 (by simp)⟩
        · cases h
          simp
    | ioError => simp [read_next_line_of_input] at h
    | otherError => simp [read_next_line_of_input] at h

/-- Fuel irrelevance for `chunkLoopF`: any fuel exceeding the stream length
gives the same result. -/
theorem chunkLoopF_irrel (px py pz z : Int) :
    ∀ fa fb (st : ChunkState) (chunk : List SubBlock),
      st.file2.length < fa → st.file2.length < fb →
      chunkLoopF px py pz z fa st chunk = chunkLoopF px py pz z fb st chunk := by
  intro fa
  induction fa with
  | zero => intro fb st chunk ha; omega
  | succ fa ih =>
    intro fb st chunk ha hb
    cases fb with
    | zero => omega
    | succ fb =>
      simp only [chunkLoopF]
      cases hp : parse_line st.line_f2 st.line_count_f2 px py pz with
      | error e => rfl
      | ok r =>
        by_cases h1 : r.z < z
        · simp [h1]
        · simp only [if_neg h1]
          by_cases h2 : px = 0
          · simp [h2]
          · simp only [if_neg h2]
            by_cases h3 : Int.fdiv r.x px ≠ Int.fdiv (r.x + r.sx - 1) px
            · simp [h3]
            · simp only [if_neg h3]
              by_cases h4 : py = 0
              · simp [h4]
              · simp only [if_neg h4]
                by_cases h5 : Int.fdiv r.y py ≠ Int.fdiv (r.y + r.sy - 1) py
                · simp [h5]
                · simp only [if_neg h5]
                  by_cases h6 : pz = 0
                  · simp [h6]
                  · simp only [if_neg h6]
                    by_cases h7 : Int.fdiv r.z pz ≠ Int.fdiv (r.z + r.sz - 1) pz
                    · simp [h7]
                    · simp only [if_neg h7]
                      by_cases h8 : r.z > z + pz - 1
                      · simp [h8]
                      · simp only [if_neg h8]
                        cases hr : read_next_line_of_input st.file2 st.line_count_f2 with
                        | error e => rfl
                        | ok out =>
                          obtain ⟨l, lc, f2⟩ := out
                          by_cases hl : l = ""
                          · simp [hl]
                          · simp only [if_neg hl]
                            have hlen := (read_next_length hr).2 hl
                            exact ih fb _ _ (by simp; omega) (by simp; omega)

/-- A record's box does not straddle a parent-block boundary on any axis
(the three floor-division checks of runner.py lines 350-367). -/
def noCross (px py pz : Int) (r : Rec) : Prop :=
  Int.fdiv r.x px = Int.fdiv (r.x + r.sx - 1) px ∧
  Int.fdiv r.y py = Int.fdiv (r.y + r.sy - 1) py ∧
  Int.fdiv r.z pz = Int.fdiv (r.z + r.sz - 1) pz

instance : ∀ px py pz r, Decidable (noCross px py pz r) := fun px py pz r => by
  unfold noCross; infer_instance

theorem chunkLoop_earlier {px py pz z : Int} {st : ChunkState} {chunk : List SubBlock}
    {r : Rec} (hp : parse_line st.line_f2 st.line_count_f2 px py pz = .ok r)
    (hz : r.z < z) :
    chunkLoop px py pz z st chunk = .error (.earlierChunk st.line_count_f2 st.line_f2) := by
  simp [chunkLoop, chunkLoopF, hp, hz]

theorem chunkLoop_crossX {px py pz z : Int} {st : ChunkState} {chunk : List SubBlock}
    {r : Rec} (hp : parse_line st.line_f2 st.line_count_f2 px py pz = .ok r)
    (hz : ¬ r.z < z) (hpx : px ≠ 0)
    (hx : Int.fdiv r.x px ≠ Int.fdiv (r.x + r.sx - 1) px) :
    chunkLoop px py pz z st chunk = .error (.crossesParentX st.line_count_f2 st.line_f2) := by
  simp [chunkLoop, chunkLoopF, hp, hz, hpx, hx]

theorem chunkLoop_crossY {px py pz z : Int} {st : ChunkState} {chunk : List SubBlock}
    {r : Rec} (hp : parse_line st.line_f2 st.line_count_f2 px py pz = .ok r)
    (hz : ¬ r.z < z) (hpx : px ≠ 0)
    (hx : Int.fdiv r.x px = Int.fdiv (r.x + r.sx - 1) px) (hpy : py ≠ 0)
    (hy : Int.fdiv r.y py ≠ Int.fdiv (r.y + r.sy - 1) py) :
    chunkLoop px py pz z st chunk = .error (.crossesParentY st.line_count_f2 st.line_f2) := by
  simp [chunkLoop, chunkLoopF, hp, hz, hpx, hx, hpy, hy]

theorem chunkLoop_crossZ {px py pz z : Int} {st : ChunkState} {chunk : List SubBlock}
    {r : Rec} (hp : parse_line st.line_f2 st.line_count_f2 px py pz = .ok r)
    (hz : ¬ r.z < z) (hpx : px ≠ 0)
    (hx : Int.fdiv r.x px = Int.fdiv (r.x + r.sx - 1) px) (hpy : py ≠ 0)
    (hy : Int.fdiv r.y py = Int.fdiv (r.y + r.sy - 1) py) (hpz : pz ≠ 0)
    (hzc : Int.fdiv r.z pz ≠ Int.fdiv (r.z + r.sz - 1) pz) :
    chunkLoop px py pz z st chunk = .error (.crossesParentZ st.line_count_f2 st.line_f2) := by
  simp [chunkLoop, chunkLoopF, hp, hz, hpx, hx, hpy, hy, hpz, hzc]

theorem chunkLoop_break {px py pz z : Int} {st : ChunkState} {chunk : List SubBlock}
    {r : Rec} (hp : parse_line st.line_f2 st.line_count_f2 px py pz = .ok r)
    (hz : ¬ r.z < z) (hpx : px ≠ 0) (hpy : py ≠ 0) (hpz : pz ≠ 0)
    (hnc : noCross px py pz r) (hnext : r.z > z + pz - 1) :
    chunkLoop px py pz z st chunk =
      .ok (chunk, { st with line_count_f2_last_chunk_end := st.line_count_f2 }) := by
  obtain ⟨hx, hy, hzc⟩ := hnc
  simp [chunkLoop, chunkLoopF, hp, hz, hpx, hx, hpy, hy, hpz, hzc, hnext]

theorem chunkLoop_explode_eof {px py pz z : Int} {st : ChunkState} {chunk : List SubBlock}
    {r : Rec} {lc : Nat} {f2 : List ReadEvent}
    (hp : parse_line st.line_f2 st.line_count_f2 px py pz = .ok r)
    (hz : ¬ r.z < z) (hpx : px ≠ 0) (hpy : py ≠ 0) (hpz : pz ≠ 0)
    (hnc : noCross px py pz r) (hnext : ¬ r.z > z + pz - 1)
    (hr : read_next_line_of_input st.file2 st.line_count_f2 = .ok ("", lc, f2)) :
    chunkLoop px py pz z st chunk =
      .ok (chunk ++ explodeBlock r st.line_count_f2,
        ⟨"", lc, f2, st.line_count_f2_last_chunk_end, st.block_count_f2 + 1⟩) := by
  obtain ⟨hx, hy, hzc⟩ := hnc
  simp [chunkLoop, chunkLoopF, hp, hz, hpx, hx, hpy, hy, hpz, hzc, hnext, hr]

theorem chunkLoop_explode_step {px py pz z : Int} {st : ChunkState} {chunk : List SubBlock}
    {r : Rec} {l : String} {lc : Nat} {f2 : List ReadEvent}
    (hp : parse_line st.line_f2 st.line_count_f2 px py pz = .ok r)
    (hz : ¬ r.z < z) (hpx : px ≠ 0) (hpy : py ≠ 0) (hpz : pz ≠ 0)
    (hnc : noCross px py pz r) (hnext : ¬ r.z > z + pz - 1)
    (hr : read_next_line_of_input st.file2 st.line_count_f2 = .ok (l, lc, f2))
    (hl : l ≠ "") :
    chunkLoop px py pz z st chunk =
      chunkLoop px py pz z
        ⟨l, lc, f2, st.line_count_f2_last_chunk_end, st.block_count_f2 + 1⟩
        (chunk ++ explodeBlock r st.line_count_f2) := by
  obtain ⟨hx, hy, hzc⟩ := hnc
  have hlen := (read_next_length hr).2 hl
  conv =>
    lhs
    rw [chunkLoop]
  simp only [chunkLoopF, hp, hz, hpx, hx, hpy, hy, hpz, hzc, hnext, hr, if_neg hz,
    if_neg hpx, if_neg hpy, if_neg hpz, if_neg hnext, if_neg hl, ite_not, if_neg,
    not_true_eq_false, ite_false]
  rw [chunkLoop]
  exact chunkLoopF_irrel px py pz z _ _ _ _ (by simpa using by omega) (by simp)

/-- A data line as skipped or consumed by `read_next_line_of_input`. -/
def isSkipLine (l : String) : Bool :=
  match l.toList with
  | [] => false
  | c :: _ => isSkipChar c

/-- A stream of read events representing a list of records under
`parse_line` with the given parent sizes: data lines parse to the records in
order, interleaved with comment and blank lines, with no read failures. -/
inductive Represents (px py pz : Int) : List ReadEvent → List Rec → Prop
  | nil : Represents px py pz [] []
  | skip (l : String) (f : List ReadEvent) (rs : List Rec) :
      l ≠ "" → isSkipLine l = true → Represents px py pz f rs →
      Represents px py pz (.line l :: f) rs
  | data (l : String) (r : Rec) (f : List ReadEvent) (rs : List Rec) :
      l ≠ "" → isSkipLine l = false →
      (∀ lc, parse_line l lc px py pz = .ok r) →
      Represents px py pz f rs →
      Represents px py pz (.line l :: f) (r :: rs)

/-- Reading past a comment or blank line. -/
theorem read_next_cons_skip {l : String} {rest : List ReadEvent} {n : Nat}
    (hskip : isSkipLine l = true) :
    read_next_line_of_input (.line l :: rest) n = read_next_line_of_input rest (n + 1) := by
  obtain ⟨cs⟩ := l
  unfold isSkipLine at hskip
  simp only [String.toList] at hskip
  rw [read_next_line_of_input]
  simp only [String.toList]
  cases cs with
  | nil => simp at hskip
  | cons c cs2 =>
    have hskip2 : isSkipChar c = true := hskip
    simp [hskip2]

/-- Reading a data line returns it. -/
theorem read_next_cons_data {l : String} {rest : List ReadEvent} {n : Nat}
    (hne : l ≠ "") (hskip : isSkipLine l = false) :
    read_next_line_of_input (.line l :: rest) n = .ok (l, n + 1, rest) := by
  obtain ⟨cs⟩ := l
  unfold isSkipLine at hskip
  simp only [String.toList] at hskip
  rw [read_next_line_of_input]
  simp only [String.toList]
  cases cs with
  | nil => exact absurd rfl hne
  | cons c cs2 =>
    have hskip2 : isSkipChar c = false := hskip
    simp [hskip2]

/-- Reading from a stream that represents no records reaches end of file. -/
theorem represents_nil_read {px py pz : Int} {f : List ReadEvent}
    (h : Represents px py pz f []) (n : Nat) :
    ∃ n1, read_next_line_of_input f n = .ok ("", n1, []) := by
  induction f generalizing n with
  | nil => exact ⟨n + 1, rfl⟩
  | cons ev rest ih =>
    cases h with
    | skip l f rs hne hskip hrep =>
      rw [read_next_cons_skip hskip]
      exact ih hrep (n + 1)

/-- Reading from a stream representing `r :: rs` yields a nonempty line that
parses to `r`, with the rest of the stream representing `rs`. -/
theorem represents_cons_read {px py pz : Int} {f : List ReadEvent} {r : Rec} {rs : List Rec}
    (h : Represents px py pz f (r :: rs)) (n : Nat) :
    ∃ l n1 f1, read_next_line_of_input f n = .ok (l, n1, f1) ∧ l ≠ "" ∧
      (∀ lc, parse_line l lc px py pz = .ok r) ∧ Represents px py pz f1 rs := by
  induction f generalizing n with
  | nil => cases h
  | cons ev rest ih =>
    cases h with
    | skip l f rs hne hskip hrep =>
      obtain ⟨l1, n1, f1, h1, h2, h3, h4⟩ := ih hrep (n + 1)
      exact ⟨l1, n1, f1, by rw [read_next_cons_skip hskip]; exact h1, h2, h3, h4⟩
    | data l r2 f rs hne hskip hparse hrep =>
      exact ⟨l, n + 1, rest, read_next_cons_data hne hskip, hne, hparse, hrep⟩

/-- Fuel irrelevance for `rangeListF` with positive step. -/
theorem rangeListF_irrel {step : Int} (hstep : 0 < step) :
    ∀ fa fb (start stop : Int), (stop - start).toNat ≤ fa → (stop - start).toNat ≤ fb →
      rangeListF fa start stop step = rangeListF fb start stop step := by
  intro fa
  induction fa with
  | zero =>
    intro fb start stop ha hb
    cases fb with
    | zero => rfl
    | succ fb =>
      simp only [rangeListF]
      rw [if_neg (by omega)]
  | succ fa ih =>
    intro fb start stop ha hb
    cases fb with
    | zero =>
      simp only [rangeListF]
      rw [if_neg (by omega)]
    | succ fb =>
      simp only [rangeListF]
      by_cases hss : start < stop
      · rw [if_pos (Or.inl ⟨hstep, hss⟩), if_pos (Or.inl ⟨hstep, hss⟩)]
        rw [ih fb (start + step) stop (by omega) (by omega)]
      · rw [if_neg (by omega), if_neg (by omega)]

/-- One step of Python `range(start, stop, step)` for positive step. -/
theorem rangeList_step {start stop step : Int} (hstep : 0 < step) :
    rangeList start stop step =
      if start < stop then start :: rangeList (start + step) stop step else [] := by
  by_cases hss : start < stop
  · rw [if_pos hss]
    rw [rangeList, rangeList]
    have h1 : (stop - start).natAbs = ((stop - start).toNat - 1) + 1 := by omega
    rw [h1]
    simp only [rangeListF]
    rw [if_pos (Or.inl ⟨hstep, hss⟩)]
    rw [rangeListF_irrel hstep ((stop - start).toNat - 1) (stop - (start + step)).natAbs
      (start + step) stop (by omega) (by omega)]
  · rw [if_neg hss]
    rw [rangeList]
    cases hfa : (stop - start).natAbs with
    | zero => rfl
    | succ n =>
      simp only [rangeListF]
      rw [if_neg (by omega)]

/-- A coordinate mismatch against the pulled reference record is fatal,
naming the reference block's coordinates (runner.py lines 410-416). -/
theorem checkChunk_mismatch_coord {e : SubBlock} {rest : List SubBlock}
    {f1 : List ReadEvent} {lc1 : Nat} {l1 : String} {lc1a : Nat} {f1a : List ReadEvent} {r : Rec}
    (hr : read_next_line_of_input f1 lc1 = .ok (l1, lc1a, f1a)) (hl : l1 ≠ "")
    (hp : parse_line l1 lc1a 1 1 1 = .ok r)
    (hm : e.x ≠ r.x ∨ e.y ≠ r.y ∨ e.z ≠ r.z) :
    checkChunk (e :: rest) f1 lc1 = .error (.blockMismatch r.x r.y r.z) := by
  rw [checkChunk, hr]
  simp only [if_neg hl, hp]
  rw [if_pos (by simp only [Bool.or_eq_true, decide_eq_true_eq]; tauto)]

/-- A domain mismatch against the pulled reference record is fatal, naming
the block, both domains and the offending candidate line (runner.py lines
417-426). -/
theorem checkChunk_mismatch_domain {e : SubBlock} {rest : List SubBlock}
    {f1 : List ReadEvent} {lc1 : Nat} {l1 : String} {lc1a : Nat} {f1a : List ReadEvent} {r : Rec}
    (hr : read_next_line_of_input f1 lc1 = .ok (l1, lc1a, f1a)) (hl : l1 ≠ "")
    (hp : parse_line l1 lc1a 1 1 1 = .ok r)
    (hx : e.x = r.x) (hy : e.y = r.y) (hz : e.z = r.z) (hd : e.domain ≠ r.domain) :
    checkChunk (e :: rest) f1 lc1 =
      .error (.domainMismatch r.x r.y r.z e.domain e.srcLine r.domain) := by
  rw [checkChunk, hr]
  simp only [if_neg hl, hp]
  rw [if_neg (by simp [hx, hy, hz]), if_pos (by simpa using hd)]

/-- The per-chunk comparison accepts exactly when pulling one reference
record per sorted sub-block succeeds and every pair agrees on the coordinate
triple and the domain. -/
theorem checkChunk_ok_iff :
    ∀ (chunk : List SubBlock) (f1 : List ReadEvent) (lc1 : Nat),
    (∃ out, checkChunk chunk f1 lc1 = .ok out) ↔
    (∃ recs f1a lc1a, pullRecords chunk.length f1 lc1 = some (recs, f1a, lc1a) ∧
      List.Forall₂ subMatches chunk recs) := by
  intro chunk
  induction chunk with
  | nil =>
    intro f1 lc1
    constructor
    · intro _
      exact ⟨[], f1, lc1, rfl, List.Forall₂.nil⟩
    · intro _
      exact ⟨(f1, lc1), rfl⟩
  | cons e rest ih =>
    intro f1 lc1
    rw [checkChunk]
    show _ ↔ (∃ recs f1a lc1a, pullRecords (rest.length + 1) f1 lc1 = _ ∧ _)
    rw [pullRecords]
    cases hr : read_next_line_of_input f1 lc1 with
    | error err => simp
    | ok out =>
      obtain ⟨l1, lc1a, f1a⟩ := out
      by_cases hl : l1 = ""
      · simp [hl]
      · simp only [if_neg hl]
        cases hp : parse_line l1 lc1a 1 1 1 with
        | error err => simp
        | ok r =>
          dsimp only
          by_cases hco : e.x ≠ r.x ∨ e.y ≠ r.y ∨ e.z ≠ r.z
          · rw [if_pos (by simp only [Bool.or_eq_true, decide_eq_true_eq]; tauto)]
            constructor
            · rintro ⟨out, h⟩
              cases h
            · rintro ⟨recs, f1b, lc1b, hpull, hall⟩
              exfalso
              cases hall2 : recs with
              | nil =>
                rw [hall2] at hall
                cases hall
              | cons r2 recs2 =>
                rw [hall2] at hpull hall
                cases hall with
                | cons hm _ =>
                  have : r2 = r := by
                    cases hpl : pullRecords rest.length f1a lc1a with
                    | none => rw [hpl] at hpull; cases hpull
                    | some out2 =>
                      obtain ⟨recs3, f1c, lc1c⟩ := out2
                      rw [hpl] at hpull
                      cases hpull
                      rfl
                  rw [this] at hm
                  obtain ⟨h1, h2, h3, _⟩ := hm
                  tauto
          · rw [if_neg (by simp only [Bool.or_eq_true, decide_eq_true_eq]; tauto)]
            push_neg at hco
            obtain ⟨hx, hy, hz⟩ := hco
            by_cases hd : e.domain ≠ r.domain
            · rw [if_pos (by simpa using hd)]
              constructor
              · rintro ⟨out, h⟩
                cases h
              · rintro ⟨recs, f1b, lc1b, hpull, hall⟩
                exfalso
                cases hall2 : recs with
                | nil => rw [hall2] at hall; cases hall
                | cons r2 recs2 =>
                  rw [hall2] at hpull hall
                  cases hall with
                  | cons hm _ =>
                    have : r2 = r := by
                      cases hpl : pullRecords rest.length f1a lc1a with
                      | none => rw [hpl] at hpull; cases hpull
                      | some out2 =>
                        obtain ⟨recs3, f1c, lc1c⟩ := out2
                        rw [hpl] at hpull
                        cases hpull
                        rfl
                    rw [this] at hm
                    exact hd hm.2.2.2
            · rw [if_neg (by simpa using hd)]
              push_neg at hd
              rw [ih f1a lc1a]
              constructor
              · rintro ⟨recs, f1b, lc1b, hpull, hall⟩
                exact ⟨r :: recs, f1b, lc1b, by rw [hpull],
                  List.Forall₂.cons ⟨hx, hy, hz, hd⟩ hall⟩
              · rintro ⟨recs, f1b, lc1b, hpull, hall⟩
                cases hall2 : recs with
                | nil => rw [hall2] at hall; cases hall
                | cons r2 recs2 =>
                  rw [hall2] at hpull hall
                  cases hpl : pullRecords rest.length f1a lc1a with
                  | none => rw [hpl] at hpull; cases hpull
                  | some out2 =>
                    obtain ⟨recs3, f1c, lc1c⟩ := out2
                    rw [hpl] at hpull
                    cases hpull
                    cases hall with
                    | cons hm hall3 => exact ⟨_, _, _, rfl, hall3⟩

/-- Comparing a chunk that pairwise agrees with the next records of the
reference stream succeeds and consumes exactly those records. -/
theorem checkChunk_of_agree :
    ∀ {chunk : List SubBlock} {recs rest : List Rec} {f1 : List ReadEvent} {lc1 : Nat},
    Represents 1 1 1 f1 (recs ++ rest) →
    List.Forall₂ subMatches chunk recs →
    ∃ f1a lc1a, checkChunk chunk f1 lc1 = .ok (f1a, lc1a) ∧ Represents 1 1 1 f1a rest := by
  intro chunk recs rest f1 lc1 hrep hall
  induction hall generalizing f1 lc1 with
  | nil => exact ⟨f1, lc1, rfl, hrep⟩
  | cons hm hall2 ih =>
    next e r chunk2 recs2 =>
    obtain ⟨l1, lc1a, f1a, hr, hl, hparse, hrep2⟩ := represents_cons_read hrep lc1
    obtain ⟨f1b, lc1b, hck, hrep3⟩ := ih hrep2
    refine ⟨f1b, lc1b, ?_, hrep3⟩
    rw [checkChunk, hr]
    simp only [if_neg hl, hparse lc1a]
    obtain ⟨hx, hy, hz, hd⟩ := hm
    rw [if_neg (by simp [hx, hy, hz]), if_neg (by simp [hd])]
    exact hck

/-- A zero on any axis makes the explosion empty. -/
theorem explodeBlock_eq_nil {r : Rec} (h : r.sx = 0 ∨ r.sy = 0 ∨ r.sz = 0) (lc : Nat) :
    explodeBlock r lc = [] := by
  rcases h with h | h | h <;> simp [explodeBlock, h]

/-- Claim C2: for every chunk, the assembled exploded sub-blocks are sorted
in ascending `(z, y, x)` order, and the validator accepts the chunk if and
only if pairing that sorted sequence element-by-element against exactly as
many successive reference unit-block records every pair has an identical
coordinate triple and an identical domain; a coordinate mismatch and a
domain mismatch each cause a fatal error naming the offending block. -/
theorem C2_sorted_zip_comparison (chunk_list : List SubBlock) (f1 : List ReadEvent) (lc1 : Nat) :
    List.Sorted keyLe (sortChunk chunk_list) ∧
    ((∃ out, checkChunk (sortChunk chunk_list) f1 lc1 = .ok out) ↔
      (∃ recs f1a lc1a,
        pullRecords (sortChunk chunk_list).length f1 lc1 = some (recs, f1a, lc1a) ∧
        List.Forall₂ subMatches (sortChunk chunk_list) recs)) ∧
    (∀ (e : SubBlock) (rest : List SubBlock) (l1 : String) (lc1b : Nat)
        (f1b : List ReadEvent) (r : Rec),
      read_next_line_of_input f1 lc1 = .ok (l1, lc1b, f1b) → l1 ≠ "" →
      parse_line l1 lc1b 1 1 1 = .ok r →
      ((e.x ≠ r.x ∨ e.y ≠ r.y ∨ e.z ≠ r.z →
        checkChunk (e :: rest) f1 lc1 = .error (.blockMismatch r.x r.y r.z)) ∧
      (e.x = r.x → e.y = r.y → e.z = r.z → e.domain ≠ r.domain →
        checkChunk (e :: rest) f1 lc1 =
          .error (.domainMismatch r.x r.y r.z e.domain e.srcLine r.domain)))) := by
  refine ⟨List.sorted_insertionSort keyLe chunk_list, checkChunk_ok_iff _ f1 lc1, ?_⟩
  intro e rest l1 lc1b f1b r hr hl hp
  exact ⟨fun hm => checkChunk_mismatch_coord hr hl hp hm,
    fun hx hy hz hd => checkChunk_mismatch_domain hr hl hp hx hy hz hd⟩

/-- Witness for C2 at a concrete chunk and reference stream: the singleton
chunk mismatches the reference block `(0,0,0)` by coordinates, producing the
error that names the reference block. -/
theorem C2_sorted_zip_comparison_witness :
    checkChunk [⟨1, 2, 3, "d", 7⟩] [.line "0,0,0,1,1,1,ore\n"] 1 =
      .error (.blockMismatch 0 0 0) :=
  ((C2_sorted_zip_comparison [] [.line "0,0,0,1,1,1,ore\n"] 1).2.2
    ⟨1, 2, 3, "d", 7⟩ [] "0,0,0,1,1,1,ore\n" 2 [] ⟨0, 0, 0, 1, 1, 1, "ore"⟩
    rfl (by decide) rfl).1 (by simp)

/-- Claim C3 counterexample: the candidate merged block `1,0,0,1,1,1,ore` in
a `1 x 1 x 1` grid (parent sizes `2,2,2`) has its box `[1,2)` outside the
grid bounds `[0,1)` and straddles no parent boundary; the validator does not
raise a geometric invariant error but proceeds to compare the chunk and
fails with an equivalence error. -/
theorem C3_counterexample :
    parse_line "1,0,0,1,1,1,ore\n" 1 2 2 2 = .ok ⟨1, 0, 0, 1, 1, 1, "ore"⟩ ∧
    noCross 2 2 2 ⟨1, 0, 0, 1, 1, 1, "ore"⟩ ∧
    ((1 : Int) + 1 > 1) ∧
    runCore [.line "# 1,1,1,2,2,2\n", .line "0,0,0,1,1,1,ore\n"]
      [.line "1,0,0,1,1,1,ore\n"] = .error (.blockMismatch 0 0 0) ∧
    (Err.blockMismatch 0 0 0).isGeometricInvariant = false :=
  ⟨rfl, by decide, by decide, rfl, rfl⟩

/-- Claim C3 (amended): a candidate record that straddles a parent-block
boundary on some axis makes the validator fail with a geometric invariant
error, and the chunk is never compared (the whole chunk loop returns that
error before any reference line is pulled); grid-bounds violations are not
geometrically checked. -/
theorem C3_boundary_straddle_fatal (px py pz z : Int) (st : ChunkState)
    (chunk : List SubBlock) (zs : List Int) (f1 : List ReadEvent) (lc1 : Nat) (r : Rec)
    (hp : parse_line st.line_f2 st.line_count_f2 px py pz = .ok r)
    (hz : ¬ r.z < z) (hpx : px ≠ 0) (hpy : py ≠ 0) (hpz : pz ≠ 0)
    (hcross : ¬ noCross px py pz r) :
    ∃ err, chunkLoop px py pz z st chunk = .error err ∧
      err.isGeometricInvariant = true ∧
      runChunks px py pz (z :: zs) st f1 lc1 = .error err := by
  unfold noCross at hcross
  push_neg at hcross
  by_cases hx : Int.fdiv r.x px = Int.fdiv (r.x + r.sx - 1) px
  · by_cases hy : Int.fdiv r.y py = Int.fdiv (r.y + r.sy - 1) py
    · have hzc := hcross hx hy
      refine ⟨.crossesParentZ st.line_count_f2 st.line_f2,
        chunkLoop_crossZ hp hz hpx hx hpy hy hpz hzc, rfl, ?_⟩
      rw [runChunks, chunkLoop_crossZ hp hz hpx hx hpy hy hpz hzc]
    · refine ⟨.crossesParentY st.line_count_f2 st.line_f2,
        chunkLoop_crossY hp hz hpx hx hpy hy, rfl, ?_⟩
      rw [runChunks, chunkLoop_crossY hp hz hpx hx hpy hy]
  · refine ⟨.crossesParentX st.line_count_f2 st.line_f2,
      chunkLoop_crossX hp hz hpx hx, rfl, ?_⟩
    rw [runChunks, chunkLoop_crossX hp hz hpx hx]

/-- Witness for C3 (amended): candidate block `1,0,0,2,1,1,ore` with parent
x-size 2 straddles the x parent boundary (its box `[1,3)` spans two parent
cells) and fails with the x-axis parent-boundary error. -/
theorem C3_boundary_straddle_fatal_witness :
    ∃ err, chunkLoop 2 1 1 0 ⟨"1,0,0,2,1,1,ore\n", 1, [], 0, 0⟩ [] = .error err ∧
      err.isGeometricInvariant = true ∧
      runChunks 2 1 1 [0] ⟨"1,0,0,2,1,1,ore\n", 1, [], 0, 0⟩ [] 1 = .error err :=
  C3_boundary_straddle_fatal 2 1 1 0 ⟨"1,0,0,2,1,1,ore\n", 1, [], 0, 0⟩ [] [] [] 1
    ⟨1, 0, 0, 2, 1, 1, "ore"⟩ rfl (by decide) (by decide) (by decide) (by decide) (by decide)

/-- Claim C4 counterexample: the record `1,0,2,2,1,1,d` lies beyond the slab
`[0,2)` (its z is `2 ≥ 0 + 2`) but straddles the x parent boundary, so the
validator dies with the boundary error instead of closing the slab and
retaining the record for the next slab. -/
theorem C4_counterexample :
    parse_line "1,0,2,2,1,1,d\n" 5 2 2 2 = .ok ⟨1, 0, 2, 2, 1, 1, "d"⟩ ∧
    ((2 : Int) ≥ 0 + 2) ∧
    chunkLoop 2 2 2 0 ⟨"1,0,2,2,1,1,d\n", 5, [], 0, 0⟩ [] =
      .error (.crossesParentX 5 "1,0,2,2,1,1,d\n") :=
  ⟨rfl, by decide, rfl⟩

/-- Claim C4 (amended): during slab assembly over `[z, z + parent_z)`, a
pulled record whose z lies strictly before `z` is fatal (candidate stream
must be in non-decreasing chunk order), and a record passing the
parent-boundary checks whose z lies at or beyond `z + parent_z` closes the
slab without being exploded, the record's line being retained as the pending
first line of the next slab. -/
theorem C4_slab_assembly (px py pz z : Int) (st : ChunkState) (chunk : List SubBlock)
    (r : Rec) (hp : parse_line st.line_f2 st.line_count_f2 px py pz = .ok r) :
    (r.z < z → chunkLoop px py pz z st chunk =
      .error (.earlierChunk st.line_count_f2 st.line_f2)) ∧
    (0 < pz → px ≠ 0 → py ≠ 0 → noCross px py pz r → r.z ≥ z + pz →
      chunkLoop px py pz z st chunk =
        .ok (chunk, { st with line_count_f2_last_chunk_end := st.line_count_f2 })) := by
  constructor
  · intro hz
    exact chunkLoop_earlier hp hz
  · intro hpz hpx hpy hnc hbeyond
    exact chunkLoop_break hp (by omega) hpx hpy (by omega) hnc (by omega)

/-- Witness for C4 at concrete inputs: a record of the next slab closes the
current slab `[0,1)` unexploded with its line retained. -/
theorem C4_slab_assembly_witness :
    chunkLoop 2 2 1 0 ⟨"0,0,1,1,1,1,d\n", 4, [], 0, 0⟩ [] =
      .ok ([], ⟨"0,0,1,1,1,1,d\n", 4, [], 4, 0⟩) :=
  (C4_slab_assembly 2 2 1 0 ⟨"0,0,1,1,1,1,d\n", 4, [], 0, 0⟩ [] ⟨0, 0, 1, 1, 1, 1, "d"⟩
    rfl).2 (by decide) (by decide) (by decide) (by decide) (by decide)

/-- Claim C5: the candidate stream below covers only cell `(0,0,0)` of the
two-cell grid `2 x 1 x 1` and then ends, yet the validator reports success
with compression `1/2` — the final slab's trailing cells are never checked
against the remaining reference records, so a short candidate is accepted. -/
theorem C5_short_candidate_accepted :
    runCore
      [.line "# 2,1,1,2,1,1\n", .line "0,0,0,1,1,1,ore\n", .line "1,0,0,1,1,1,ore\n"]
      [.line "0,0,0,1,1,1,ore\n"] = .ok (1 / 2 : Rat) ∧
    (explodeBlock ⟨0, 0, 0, 1, 1, 1, "ore"⟩ 1).length = 1 ∧
    ((2 : Int) * 1 * 1 = 2) :=
  ⟨by with_unfolding_all rfl, rfl, rfl⟩

/-- Claim C6 counterexample: the domain strip set contains the single quote
but not the double quote, so a double-quoted reference domain keeps its
quotes while a single-quoted candidate domain loses them, and the same inner
text `ore` produces a fatal domain mismatch rather than comparing equal. -/
theorem C6_counterexample :
    parse_line ("0,0,0,1,1,1," ++ dquote.toString ++ "ore" ++ dquote.toString ++ "\n") 2 1 1 1 =
      .ok ⟨0, 0, 0, 1, 1, 1, dquote.toString ++ "ore" ++ dquote.toString⟩ ∧
    parse_line ("0,0,0,1,1,1," ++ squote.toString ++ "ore" ++ squote.toString ++ "\n") 1 1 1 1 =
      .ok ⟨0, 0, 0, 1, 1, 1, "ore"⟩ ∧
    dquote.toString ++ "ore" ++ dquote.toString ≠ "ore" ∧
    runCore
      [.line "# 1,1,1,1,1,1\n",
        .line ("0,0,0,1,1,1," ++ dquote.toString ++ "ore" ++ dquote.toString ++ "\n")]
      [.line ("0,0,0,1,1,1," ++ squote.toString ++ "ore" ++ squote.toString ++ "\n")] =
      .error (.domainMismatch 0 0 0 "ore" 1 (dquote.toString ++ "ore" ++ dquote.toString)) :=
  ⟨rfl, rfl, by decide, rfl⟩

/-- Claim C6 (amended): the domain is the substring after the last comma
trimmed of surrounding single-quote, space, CR and LF characters; wrapping a
domain in single quotes never changes the trimmed result, so reference and
candidate domains with the same inner text compare equal when each is
unquoted or single-quoted (double quotes are not trimmed). -/
theorem C6_single_quote_trim :
    (∀ t : List Char, pyStrip (squote :: (t ++ [squote])) = pyStrip t) ∧
    parse_line ("0,0,0,1,1,1," ++ squote.toString ++ "ore" ++ squote.toString ++ "\n") 1 1 1 1 =
      parse_line "0,0,0,1,1,1,ore\n" 1 1 1 1 := by
  constructor
  · intro t
    have hsq : isStripChar squote = true := by simp [isStripChar]
    unfold pyStrip
    rw [List.dropWhile_cons, if_pos hsq]
    induction t with
    | nil => simp [hsq]
    | cons a t ih =>
      by_cases ha : isStripChar a = true
      · rw [List.cons_append, List.dropWhile_cons, if_pos ha, List.dropWhile_cons, if_pos ha]
        exact ih
      · rw [List.cons_append, List.dropWhile_cons, if_neg (by simp [ha]),
          List.dropWhile_cons, if_neg (by simp [ha])]
        rw [show (a :: (t ++ [squote])).reverse = squote :: (t.reverse ++ [a]) by simp]
        rw [List.dropWhile_cons, if_pos hsq]
        rw [show (a :: t).reverse = t.reverse ++ [a] by simp]
  · rfl

/-- Claim C7 counterexample: reference data lines are parsed by `parse_line`
with parent sizes `1,1,1` (the `unit sized blocks only` check lives only in
the uncalled `parse_and_check_line_of_file1`): a size field of 2 gives the
`block is too large` error, not `unit sized blocks only`, and a reference
line with a size field of 0 is accepted — the run below succeeds. -/
theorem C7_counterexample :
    parse_line "0,0,0,2,1,1,ore\n" 2 1 1 1 = .error (.blockTooLarge 2 "0,0,0,2,1,1,ore\n") ∧
    Err.blockTooLarge 2 "0,0,0,2,1,1,ore\n" ≠ Err.unitSizedOnly 2 "0,0,0,2,1,1,ore\n" ∧
    runCore [.line "# 1,1,1,1,1,1\n", .line "0,0,0,0,1,1,ore\n"]
      [.line "0,0,0,1,1,1,ore\n"] = .ok (0 : Rat) :=
  ⟨rfl, by decide, by with_unfolding_all rfl⟩

/-- Claim C7 (amended): a reference data line is parsed as a merged-block
line with parent sizes `1,1,1`, so its accepted size fields are each 0 or 1
(negative sizes give `expecting positive block sizes only` and sizes above 1
give `block is too large`; exact equality with 1 is not enforced). -/
theorem C7_reference_size_bounds (line : String) (lc : Nat) (r : Rec)
    (h : parse_line line lc 1 1 1 = .ok r) :
    (r.sx = 0 ∨ r.sx = 1) ∧ (r.sy = 0 ∨ r.sy = 1) ∧ (r.sz = 0 ∨ r.sz = 1) := by
  rw [parse_line] at h
  split at h
  · cases h
  · split at h
    · cases h
    · split at h
      · cases h
      · next s3 h3 =>
        split at h
        · cases h
        · split at h
          · cases h
          · next s4 h4 =>
            split at h
            · cases h
            · split at h
              · cases h
              · next s5 h5 =>
                split at h
                · cases h
                · split at h
                  · cases h
                  · split at h
                    · cases h
                      next hneg3 hneg4 hneg5 hbig _ _ _ _ _ _ =>
                      simp only [Bool.or_eq_true, decide_eq_true_eq, not_or, not_lt] at *
                      omega
                    · cases h

/-- Witness for C7 (amended) at the zero-size reference line. -/
theorem C7_reference_size_bounds_witness :
    (((0 : Int) = 0 ∨ (0 : Int) = 1) ∧ ((1 : Int) = 0 ∨ (1 : Int) = 1) ∧
      ((1 : Int) = 0 ∨ (1 : Int) = 1)) :=
  C7_reference_size_bounds "0,0,0,0,1,1,ore\n" 2 ⟨0, 0, 0, 0, 1, 1, "ore"⟩ rfl

/-- Claim C8 counterexample: a run whose header yields
`x_count*y_count*z_count = 0` can reach the success-path division, which is
performed with a zero denominator — modelled as the `ZeroDivisionError`
outcome (`compression = (block_count_f1 - block_count_f2) / block_count_f1`
has no zero guard in runner.py line 429). -/
theorem C8_counterexample :
    get_header_info_of_file1 [.line "# 0,1,1,2,1,1\n", .line "1,0,0,0,1,1,d\n"] 1 =
      .ok ([0, 1, 1, 2, 1, 1], [.line "1,0,0,0,1,1,d\n"]) ∧
    runCore [.line "# 0,1,1,2,1,1\n", .line "1,0,0,0,1,1,d\n"]
      [.line "1,0,0,0,1,1,d\n"] = .error .zeroDivisionError :=
  ⟨rfl, rfl⟩

/-- Claim C8 (amended): the success-path division is not guarded; a run
whose header yields `x_count*y_count*z_count = 0` never reports a
compression value — any run reaching the division with a zero
`block_count_f1` terminates with `ZeroDivisionError` instead. -/
theorem C8_no_value_on_empty_grid (file1 file2 : List ReadEvent)
    (xc yc zc px py pz : Int) (rest : List ReadEvent)
    (hh : get_header_info_of_file1 file1 1 = .ok ([xc, yc, zc, px, py, pz], rest))
    (h0 : xc * yc * zc = 0) (q : Rat) :
    runCore file1 file2 ≠ .ok q := by
  intro hok
  rw [runCore, hh] at hok
  dsimp only at hok
  repeat
    first
    | cases hok
    | split at hok
    | simp_all

/-- Witness for C8 (amended) at the concrete empty-grid run. -/
theorem C8_no_value_on_empty_grid_witness :
    runCore [.line "# 0,1,1,2,1,1\n", .line "1,0,0,0,1,1,d\n"]
      [.line "1,0,0,0,1,1,d\n"] ≠ .ok (0 : Rat) :=
  C8_no_value_on_empty_grid [.line "# 0,1,1,2,1,1\n", .line "1,0,0,0,1,1,d\n"]
    [.line "1,0,0,0,1,1,d\n"] 0 1 1 2 1 1 [.line "1,0,0,0,1,1,d\n"] rfl rfl 0

/-- The fault classes named by the specification's exit-code table.
`pythonCrash` covers terminations by uncaught exceptions, which have no
`sys.exit` site and hence no code in the table. -/
inductive FaultClass where
  | success
  | formatOrEquivalence
  | setup
  | baselineProcess
  | itemProcess
  | prematureEndOfInput
  | ioReadError
  | unclassifiedReadError
  | pythonCrash
  deriving DecidableEq, Repr

/-- Modelled from the spec: the fault class of each error under the
taxonomy of the exit-code table (format, equivalence and geometric
violations all share the class exiting 1). -/
def faultClass : Err → FaultClass
  | .headerUnexpectedEOF _ => .prematureEndOfInput
  | .candUnexpectedEOF _ => .prematureEndOfInput
  | .readOSError _ => .ioReadError
  | .readOtherError _ => .unclassifiedReadError
  | .itemNotFound => .setup
  | .badExtension => .setup
  | .inputNotFound => .setup
  | .baselineFailed => .baselineProcess
  | .itemFailed => .itemProcess
  | .indexError => .pythonCrash
  | .zeroDivisionError => .pythonCrash
  | .rangeValueError => .pythonCrash
  | _ => .formatOrEquivalence

/-- Modelled from the spec: the exit codes the claim allots to each fault
class. -/
def classCodes : FaultClass → List Nat
  | .success => [0]
  | .formatOrEquivalence => [1]
  | .setup => [10, 11, 12]
  | .baselineProcess => [13]
  | .itemProcess => [14]
  | .prematureEndOfInput => [100]
  | .ioReadError => [200]
  | .unclassifiedReadError => [300]
  | .pythonCrash => []

/-- Claim C9: every terminating run that exits through a `sys.exit` site
carries the exit code its fault class is allotted, the classes have pairwise
disjoint code sets, and success exits 0. -/
theorem C9_exit_codes_by_class :
    (∀ (env : Env) (err : Err), runnerMain env = .error err → err.isCrash = false →
      ∃ c, exitCode err = some c ∧ c ∈ classCodes (faultClass err)) ∧
    (∀ c1 c2 : FaultClass, c1 ≠ c2 → (classCodes c1).Disjoint (classCodes c2)) ∧
    (∀ (env : Env) (q : Rat), runnerMain env = .ok q → 0 ∈ classCodes .success) := by
  refine ⟨?_, ?_, ?_⟩
  · intro env err henv hc
    cases err <;>
      first
      | exact Bool.noConfusion hc
      | exact ⟨_, rfl, List.Mem.head _⟩
      | exact ⟨_, rfl, List.Mem.tail _ (List.Mem.head _)⟩
      | exact ⟨_, rfl, List.Mem.tail _ (List.Mem.tail _ (List.Mem.head _))⟩
  · intro c1 c2 hne
    cases c1 <;> cases c2 <;>
      first
      | exact absurd rfl hne
      | (intro a ha hb; simp [classCodes] at ha hb; omega)
      | (intro a ha hb; simp [classCodes] at ha hb)
  · intro env q _
    simp [classCodes]

/-- Witness for C9 at a concrete failing environment: a missing item under
test exits with a setup code. -/
theorem C9_exit_codes_by_class_witness :
    ∃ c, exitCode .itemNotFound = some c ∧ c ∈ classCodes (faultClass .itemNotFound) :=
  C9_exit_codes_by_class.1
    ⟨false, true, false, true, false, 0, 0, 0, [], []⟩ .itemNotFound rfl rfl

/-- Claim C10: a candidate record with a zero size field that passes the
size-limit and parent-boundary checks is accepted, increments
`block_count_f2` by one, and contributes no exploded sub-blocks; a candidate
stream of such records can push `block_count_f2` above `block_count_f1`
while still passing equivalence, making the reported compression negative
(the run below covers the two-cell grid with three records). -/
theorem C10_zero_size_blocks :
    (∀ (px py pz z : Int) (st : ChunkState) (chunk : List SubBlock) (r : Rec)
        (lc : Nat) (f2 : List ReadEvent),
      parse_line st.line_f2 st.line_count_f2 px py pz = .ok r →
      (r.sx = 0 ∨ r.sy = 0 ∨ r.sz = 0) →
      ¬ r.z < z → px ≠ 0 → py ≠ 0 → pz ≠ 0 → noCross px py pz r → ¬ r.z > z + pz - 1 →
      read_next_line_of_input st.file2 st.line_count_f2 = .ok ("", lc, f2) →
      chunkLoop px py pz z st chunk =
        .ok (chunk, ⟨"", lc, f2, st.line_count_f2_last_chunk_end, st.block_count_f2 + 1⟩)) ∧
    runCore
      [.line "# 2,1,1,2,1,1\n", .line "0,0,0,1,1,1,ore\n", .line "1,0,0,1,1,1,ore\n"]
      [.line "0,0,0,2,1,1,ore\n", .line "1,0,0,0,1,1,ore\n", .line "1,0,0,0,1,1,ore\n"] =
      .ok (-(1 / 2) : Rat) := by
  constructor
  · intro px py pz z st chunk r lc f2 hp hzero hz hpx hpy hpz hnc hnext hr
    have h2 := @chunkLoop_explode_eof px py pz z st chunk r lc f2 hp hz hpx hpy hpz hnc hnext hr
    rwa [explodeBlock_eq_nil hzero, List.append_nil] at h2
  · with_unfolding_all rfl

/-- Witness for C10's universal part at a concrete zero-size record. -/
theorem C10_zero_size_blocks_witness :
    chunkLoop 2 1 1 0 ⟨"1,0,0,0,1,1,ore\n", 2, [], 0, 5⟩ [⟨0, 0, 0, "ore", 1⟩] =
      .ok ([⟨0, 0, 0, "ore", 1⟩], ⟨"", 3, [], 0, 6⟩) :=
  C10_zero_size_blocks.1 2 1 1 0 ⟨"1,0,0,0,1,1,ore\n", 2, [], 0, 5⟩ [⟨0, 0, 0, "ore", 1⟩]
    ⟨1, 0, 0, 0, 1, 1, "ore"⟩ 3 [] rfl (by decide) (by decide) (by decide) (by decide)
    (by decide) (by decide) (by decide) rfl

/-- Claim C1 counterexample: the valid pair below encodes the same set of
unit cells (the zero-size records add no cells), yet the reported
compression is `-1/2`, outside `[0, 1)`. -/
theorem C1_counterexample :
    runCore
      [.line "# 2,1,1,2,1,1\n", .line "0,0,0,1,1,1,ore\n", .line "1,0,0,1,1,1,ore\n"]
      [.line "0,0,0,2,1,1,ore\n", .line "1,0,0,0,1,1,ore\n", .line "1,0,0,0,1,1,ore\n"] =
      .ok (-(1 / 2) : Rat) ∧ ¬ ((0 : Rat) ≤ -(1 / 2)) :=
  ⟨by with_unfolding_all rfl, by norm_num⟩

/-- The cell content of a sub-block: coordinate triple and domain. -/
def SubBlock.cell (e : SubBlock) : (Int × Int × Int) × String := ((e.x, e.y, e.z), e.domain)

/-- The unit cells covered by a merged record, with its domain. -/
def recCells (r : Rec) : List ((Int × Int × Int) × String) :=
  (List.range r.sz.toNat).flatMap fun (dz : Nat) =>
    (List.range r.sy.toNat).flatMap fun (dy : Nat) =>
      (List.range r.sx.toNat).map fun (dx : Nat) =>
        ((r.x + (dx : Int), r.y + (dy : Int), r.z + (dz : Int)), r.domain)

theorem explodeBlock_map_cell (r : Rec) (lc : Nat) :
    (explodeBlock r lc).map SubBlock.cell = recCells r := by
  simp only [explodeBlock, recCells, List.map_flatMap, List.map_map]
  rfl

/-- The integers of `[a, b)` in ascending order. -/
def intRange (a b : Int) : List Int :=
  (List.range (b - a).toNat).map (fun (i : Nat) => a + (i : Int))

theorem mem_intRange {a b i : Int} : i ∈ intRange a b ↔ a ≤ i ∧ i < b := by
  simp only [intRange, List.mem_map, List.mem_range]
  constructor
  · rintro ⟨n, hn, rfl⟩
    omega
  · rintro ⟨h1, h2⟩
    exact ⟨(i - a).toNat, by omega, by omega⟩

theorem intRange_append {a b c : Int} (hab : a ≤ b) (hbc : b ≤ c) :
    intRange a c = intRange a b ++ intRange b c := by
  unfold intRange
  have h1 : (c - a).toNat = (b - a).toNat + (c - b).toNat := by omega
  rw [h1, List.range_add, List.map_append, List.map_map]
  congr 1
  apply List.map_congr_left
  intro i hi
  simp only [List.mem_range] at hi
  simp only [Function.comp]
  omega

theorem pairwise_lt_intRange (a b : Int) : List.Pairwise (· < ·) (intRange a b) := by
  rw [intRange, List.pairwise_map]
  apply List.Pairwise.imp ?_ (List.pairwise_lt_range _)
  intro m n h
  omega

/-- The grid cells with z in `[a, b)`, ascending in `(z, y, x)` — the order
in which a well-formed reference stream enumerates them. -/
def gridCells (xc yc : Int) (a b : Int) : List (Int × Int × Int) :=
  (intRange a b).flatMap fun z =>
    (intRange 0 yc).flatMap fun y =>
      (intRange 0 xc).map fun x => (x, y, z)

theorem mem_gridCells {xc yc a b : Int} {c : Int × Int × Int} :
    c ∈ gridCells xc yc a b ↔
      0 ≤ c.1 ∧ c.1 < xc ∧ 0 ≤ c.2.1 ∧ c.2.1 < yc ∧ a ≤ c.2.2 ∧ c.2.2 < b := by
  obtain ⟨x, y, z⟩ := c
  simp only [gridCells, List.mem_flatMap, List.mem_map, mem_intRange, Prod.mk.injEq]
  constructor
  · rintro ⟨z1, hz1, y1, hy1, x1, hx1, rfl, rfl, rfl⟩
    simp_all
  · rintro ⟨h1, h2, h3, h4, h5, h6⟩
    exact ⟨z, ⟨h5, h6⟩, y, ⟨h3, h4⟩, x, ⟨h1, h2⟩, rfl, rfl, rfl⟩

theorem gridCells_append {xc yc a b c : Int} (hab : a ≤ b) (hbc : b ≤ c) :
    gridCells xc yc a c = gridCells xc yc a b ++ gridCells xc yc b c := by
  unfold gridCells
  rw [intRange_append hab hbc, List.flatMap_append]

/-- Ascending lexicographic order on `(z, y, x)` for coordinate triples
stored as `(x, y, z)`. -/
def tripLe (a b : Int × Int × Int) : Prop :=
  a.2.2 < b.2.2 ∨ (a.2.2 = b.2.2 ∧ (a.2.1 < b.2.1 ∨ (a.2.1 = b.2.1 ∧ a.1 ≤ b.1)))

instance : DecidableRel tripLe := fun a b => by unfold tripLe; infer_instance

instance : IsAntisymm (Int × Int × Int) tripLe where
  antisymm a b := by
    obtain ⟨x1, y1, z1⟩ := a
    obtain ⟨x2, y2, z2⟩ := b
    unfold tripLe
    dsimp only
    simp only [Prod.mk.injEq]
    omega

instance : IsTrans (Int × Int × Int) tripLe where
  trans a b c := by unfold tripLe; omega

theorem keyLe_iff_tripLe (a b : SubBlock) :
    keyLe a b ↔ tripLe (a.x, a.y, a.z) (b.x, b.y, b.z) := by
  unfold keyLe tripLe
  simp

theorem gridCells_sorted (xc yc a b : Int) :
    List.Pairwise tripLe (gridCells xc yc a b) := by
  unfold gridCells
  rw [List.pairwise_flatMap]
  constructor
  · intro z _
    rw [List.pairwise_flatMap]
    constructor
    · intro y _
      rw [List.pairwise_map]
      apply List.Pairwise.imp ?_ (pairwise_lt_intRange 0 xc)
      intro x1 x2 h
      unfold tripLe
      dsimp only
      omega
    · apply List.Pairwise.imp ?_ (pairwise_lt_intRange 0 yc)
      intro y1 y2 h p1 hp1 p2 hp2
      simp only [List.mem_map, mem_intRange] at hp1 hp2
      obtain ⟨x1, _, rfl⟩ := hp1
      obtain ⟨x2, _, rfl⟩ := hp2
      unfold tripLe
      dsimp only
      omega
  · apply List.Pairwise.imp ?_ (pairwise_lt_intRange a b)
    intro z1 z2 h p1 hp1 p2 hp2
    simp only [List.mem_flatMap, List.mem_map, mem_intRange] at hp1 hp2
    obtain ⟨y1, _, x1, _, rfl⟩ := hp1
    obtain ⟨y2, _, x2, _, rfl⟩ := hp2
    unfold tripLe
    dsimp only
    omega

theorem mem_recCells {r : Rec} {p : (Int × Int × Int) × String} :
    p ∈ recCells r ↔
      ∃ cx cy cz, p = ((cx, cy, cz), r.domain) ∧
        r.x ≤ cx ∧ cx < r.x + r.sx ∧ r.y ≤ cy ∧ cy < r.y + r.sy ∧
        r.z ≤ cz ∧ cz < r.z + r.sz := by
  simp only [recCells, List.mem_flatMap, List.mem_map, List.mem_range]
  constructor
  · rintro ⟨dz, hdz, dy, hdy, dx, hdx, rfl⟩
    exact ⟨r.x + (dx : Int), r.y + (dy : Int), r.z + (dz : Int), rfl,
      by omega, by omega, by omega, by omega, by omega, by omega⟩
  · rintro ⟨cx, cy, cz, rfl, h1, h2, h3, h4, h5, h6⟩
    exact ⟨(cz - r.z).toNat, by omega, (cy - r.y).toNat, by omega, (cx - r.x).toNat,
      by omega, by simp only [Prod.mk.injEq]; exact ⟨⟨by omega, by omega, by omega⟩, trivial⟩⟩

theorem fdiv_eq_iff_bounds {a k pz : Int} (hpz : 0 < pz) :
    Int.fdiv a pz = k ↔ k * pz ≤ a ∧ a < (k + 1) * pz := by
  rw [Int.fdiv_eq_ediv a (le_of_lt hpz)]
  constructor
  · intro h
    have h1 : k ≤ a / pz := le_of_eq h.symm
    have h2 : a / pz < k + 1 := by omega
    exact ⟨(Int.le_ediv_iff_mul_le hpz).mp h1, (Int.ediv_lt_iff_lt_mul hpz).mp h2⟩
  · rintro ⟨h1, h2⟩
    have hk1 : k ≤ a / pz := (Int.le_ediv_iff_mul_le hpz).mpr h1
    have hk2 : a / pz < k + 1 := (Int.ediv_lt_iff_lt_mul hpz).mpr h2
    omega

/-- Every cell of a z-aligned record lies in the record's slab. -/
theorem recCells_slab {pz : Int} (hpz : 0 < pz) {r : Rec}
    (hal : Int.fdiv r.z pz = Int.fdiv (r.z + r.sz - 1) pz)
    {p : (Int × Int × Int) × String} (hp : p ∈ recCells r) :
    Int.fdiv p.1.2.2 pz = Int.fdiv r.z pz := by
  obtain ⟨cx, cy, cz, rfl, h1, h2, h3, h4, h5, h6⟩ := mem_recCells.mp hp
  have hb1 := (fdiv_eq_iff_bounds hpz).mp (rfl : Int.fdiv r.z pz = Int.fdiv r.z pz)
  have hb2 := (fdiv_eq_iff_bounds hpz).mp hal.symm
  exact (fdiv_eq_iff_bounds hpz).mpr ⟨by dsimp only; omega, by dsimp only; omega⟩

theorem length_flatMap_const {α β : Type} (l : List α) (f : α → List β) (n : Nat)
    (h : ∀ a ∈ l, (f a).length = n) : (l.flatMap f).length = l.length * n := by
  induction l with
  | nil => simp
  | cons a t ih =>
    simp only [List.flatMap_cons, List.length_append, List.length_cons,
      h a (by simp), ih (fun b hb => h b (by simp [hb])), Nat.succ_mul]
    omega

theorem length_intRange (a b : Int) : (intRange a b).length = (b - a).toNat := by
  simp [intRange]

theorem length_gridCells {xc yc a b : Int} (hxc : 0 ≤ xc) (hyc : 0 ≤ yc) :
    ((gridCells xc yc a b).length : Int) = (b - a).toNat * (yc * xc) := by
  unfold gridCells
  rw [length_flatMap_const _ _ (yc.toNat * xc.toNat)]
  · rw [length_intRange]
    push_cast [Int.toNat_of_nonneg hxc, Int.toNat_of_nonneg hyc]
    ring
  · intro z _
    rw [length_flatMap_const _ _ xc.toNat]
    · rw [length_intRange]
      congr 1
      omega
    · intro y _
      rw [List.length_map, length_intRange]
      omega

theorem length_le_length_flatMap {l : List Rec} (h : ∀ r ∈ l, recCells r ≠ []) :
    l.length ≤ (l.flatMap recCells).length := by
  induction l with
  | nil => simp
  | cons a t ih =>
    simp only [List.flatMap_cons, List.length_append, List.length_cons]
    have h1 : 1 ≤ (recCells a).length :=
      List.length_pos.mpr (h a (by simp))
    have h2 := ih (fun r hr => h r (by simp [hr]))
    omega

/-- A record with positive sizes covers at least its own corner cell. -/
theorem recCells_ne_nil {r : Rec} (hx : 1 ≤ r.sx) (hy : 1 ≤ r.sy) (hz : 1 ≤ r.sz) :
    recCells r ≠ [] := by
  intro h
  have : ((r.x, r.y, r.z), r.domain) ∈ recCells r :=
    mem_recCells.mpr ⟨r.x, r.y, r.z, rfl, le_refl _, by omega, le_refl _, by omega,
      le_refl _, by omega⟩
  rw [h] at this
  cases this

/-- A unit-block reference record for a cell under a domain assignment. -/
def unitRec (D : Int × Int × Int → String) (c : Int × Int × Int) : Rec :=
  ⟨c.1, c.2.1, c.2.2, 1, 1, 1, D c⟩

/-- The candidate reader position inside the module-level loop: the pending
line already read (`""` once end of file was reached, after the last record)
together with the unread stream, representing a record list. -/
def PendRep (px py pz : Int) (l : String) (f : List ReadEvent) : List Rec → Prop
  | [] => l = ""
  | r :: rs => l ≠ "" ∧ (∀ lc, parse_line l lc px py pz = .ok r) ∧ Represents px py pz f rs

/-- The chunk loop consumes exactly the records of the current slab,
explodes them in order, and leaves the position at the following records:
either the stream ended (no records follow) or the first record of a later
slab is retained as the pending line. -/
theorem chunkLoop_slab {px py pz : Int} (hpx : 0 < px) (hpy : 0 < py) (hpz : 0 < pz)
    (z : Int) :
    ∀ (A B : List Rec) (l0 : String) (lc0 lastEnd cnt : Nat) (f2 : List ReadEvent)
      (chunk : List SubBlock),
      (∀ r ∈ A, noCross px py pz r ∧ z ≤ r.z ∧ r.z < z + pz) →
      (∀ rB ∈ B.head?, noCross px py pz rB ∧ z + pz ≤ rB.z) →
      PendRep px py pz l0 f2 (A ++ B) →
      A ++ B ≠ [] →
      ∃ st1 chunkOut,
        chunkLoop px py pz z ⟨l0, lc0, f2, lastEnd, cnt⟩ chunk = .ok (chunkOut, st1) ∧
        chunkOut.map SubBlock.cell = chunk.map SubBlock.cell ++ A.flatMap recCells ∧
        st1.block_count_f2 = cnt + A.length ∧
        PendRep px py pz st1.line_f2 st1.file2 B := by
  intro A
  induction A with
  | nil =>
    intro B l0 lc0 lastEnd cnt f2 chunk hA hB hpend hne
    cases B with
    | nil => exact absurd rfl hne
    | cons rB B2 =>
      obtain ⟨hl0, hparse, hrep⟩ := hpend
      obtain ⟨hncB, hzB⟩ := hB rB rfl
      have hstep := @chunkLoop_break px py pz z ⟨l0, lc0, f2, lastEnd, cnt⟩ chunk rB
        (hparse lc0) (by omega) (by omega) (by omega) (by omega) hncB (by omega)
      refine ⟨_, _, hstep, by simp, by simp, ?_⟩
      exact ⟨hl0, hparse, hrep⟩
  | cons r A2 ih =>
    intro B l0 lc0 lastEnd cnt f2 chunk hA hB hpend hne
    obtain ⟨hl0, hparse, hrep⟩ := hpend
    have hrep1 : Represents px py pz f2 (A2 ++ B) := hrep
    obtain ⟨hncr, hzr1, hzr2⟩ := hA r (by simp)
    cases hrest : A2 ++ B with
    | nil =>
      rw [hrest] at hrep1
      obtain ⟨hA2, hBnil⟩ := List.append_eq_nil.mp hrest
      subst hA2
      subst hBnil
      obtain ⟨n1, hread⟩ := represents_nil_read hrep1 lc0
      have hstep := @chunkLoop_explode_eof px py pz z ⟨l0, lc0, f2, lastEnd, cnt⟩
        chunk r n1 [] (hparse lc0) (by omega) (by omega) (by omega)
        (by omega) hncr (by omega) hread
      refine ⟨_, _, hstep, ?_, by simp, rfl⟩
      simp [explodeBlock_map_cell]
    | cons r2 rest2 =>
      rw [hrest] at hrep1
      obtain ⟨l1, n1, f2a, hread, hl1, hparse2, hrep2⟩ := represents_cons_read hrep1 lc0
      have hstep := @chunkLoop_explode_step px py pz z ⟨l0, lc0, f2, lastEnd, cnt⟩
        chunk r l1 n1 f2a (hparse lc0) (by omega) (by omega) (by omega)
        (by omega) hncr (by omega) hread hl1
      have hpend2 : PendRep px py pz l1 f2a (A2 ++ B) := by
        rw [hrest]
        exact ⟨hl1, hparse2, hrep2⟩
      obtain ⟨st1, chunkOut, hloop, hmap, hcnt, hpend3⟩ :=
        ih B l1 n1 lastEnd (cnt + 1) f2a (chunk ++ explodeBlock r lc0)
          (fun q hq => hA q (by simp [hq])) hB hpend2 (by rw [hrest]; simp)
      refine ⟨st1, chunkOut, ?_, ?_, ?_, hpend3⟩
      · rw [hstep]
        exact hloop
      · rw [hmap]
        simp [explodeBlock_map_cell]
      · rw [hcnt]
        simp only [List.length_cons]
        omega

theorem forall2_of_cells {D : Int × Int × Int → String} :
    ∀ {S : List SubBlock} {C : List (Int × Int × Int)},
      S.map (fun e => (e.x, e.y, e.z)) = C →
      (∀ e ∈ S, e.domain = D (e.x, e.y, e.z)) →
      List.Forall₂ subMatches S (C.map (unitRec D)) := by
  intro S
  induction S with
  | nil =>
    rintro C rfl _
    exact List.Forall₂.nil
  | cons e S2 ih =>
    rintro C rfl hdom
    rw [List.map_cons, List.map_cons]
    refine List.Forall₂.cons ?_ (ih rfl (fun q hq => hdom q (by simp [hq])))
    exact ⟨rfl, rfl, rfl, hdom e (by simp)⟩

/-- Sorting the exploded chunk aligns it cell-by-cell with the reference
records of a sorted cell list carrying the same cell multiset. -/
theorem sorted_chunk_agree {D : Int × Int × Int → String} {chunkOut : List SubBlock}
    {cells : List (Int × Int × Int)}
    (hsorted : List.Pairwise tripLe cells)
    (hperm : (chunkOut.map SubBlock.cell).Perm (cells.map (fun c => (c, D c)))) :
    List.Forall₂ subMatches (sortChunk chunkOut) (cells.map (unitRec D)) := by
  have hS : (sortChunk chunkOut).Perm chunkOut := List.perm_insertionSort keyLe chunkOut
  have hpairs : ((sortChunk chunkOut).map SubBlock.cell).Perm
      (cells.map (fun c => (c, D c))) := (hS.map SubBlock.cell).trans hperm
  have hcoords : ((sortChunk chunkOut).map (fun e => (e.x, e.y, e.z))).Perm cells := by
    have h1 := hpairs.map Prod.fst
    simp only [List.map_map] at h1
    have h2 : List.map (Prod.fst ∘ SubBlock.cell) (sortChunk chunkOut) =
        List.map (fun e => (e.x, e.y, e.z)) (sortChunk chunkOut) :=
      List.map_congr_left (fun e _ => rfl)
    have h3 : List.map (Prod.fst ∘ fun c => (c, D c)) cells = List.map id cells :=
      List.map_congr_left (fun c _ => rfl)
    rw [h2, h3, List.map_id] at h1
    exact h1
  have hsortS : List.Pairwise tripLe
      ((sortChunk chunkOut).map (fun e => (e.x, e.y, e.z))) := by
    rw [List.pairwise_map]
    exact (List.sorted_insertionSort keyLe chunkOut).imp
      (fun h => (keyLe_iff_tripLe _ _).mp h)
  have heq : (sortChunk chunkOut).map (fun e => (e.x, e.y, e.z)) = cells :=
    List.eq_of_perm_of_sorted hcoords hsortS hsorted
  apply forall2_of_cells heq
  intro e he
  have hcell : e.cell ∈ cells.map (fun c => (c, D c)) :=
    hpairs.mem_iff.mp (List.mem_map_of_mem _ he)
  obtain ⟨c, hc, hceq⟩ := List.mem_map.mp hcell
  have h4 : c = (e.x, e.y, e.z) := congrArg Prod.fst hceq
  have h5 : D c = e.domain := congrArg Prod.snd hceq
  rw [← h5, h4]

/-- The per-slab split of the exact-cover permutation: the records of the
current slab cover exactly the slab's grid cells, the later records cover
the rest. -/
theorem cover_split {pz xc yc zc z : Int} {D : Int × Int × Int → String}
    (hpz : 0 < pz) (hdvd : pz ∣ z) (hzlt : z < zc)
    {A B : List Rec}
    (hAz : ∀ r ∈ A, z ≤ r.z ∧ r.z < z + pz)
    (hAal : ∀ r ∈ A, Int.fdiv r.z pz = Int.fdiv (r.z + r.sz - 1) pz)
    (hBz : ∀ r ∈ B, z + pz ≤ r.z)
    (hcover : ((A ++ B).flatMap recCells).Perm
      ((gridCells xc yc z zc).map (fun c => (c, D c)))) :
    (A.flatMap recCells).Perm
      ((gridCells xc yc z (min (z + pz) zc)).map (fun c => (c, D c))) ∧
    (B.flatMap recCells).Perm
      ((gridCells xc yc (min (z + pz) zc) zc).map (fun c => (c, D c))) := by
  obtain ⟨m, hm⟩ := hdvd
  have hmz : m * pz = z := by rw [hm]; ring
  have hmz1 : (m + 1) * pz = z + pz := by rw [add_mul, one_mul, hmz]
  have hAcell : ∀ q ∈ A.flatMap recCells, z ≤ q.1.2.2 ∧ q.1.2.2 < z + pz := by
    intro q hq
    obtain ⟨r, hr, hqr⟩ := List.mem_flatMap.mp hq
    obtain ⟨hz1, hz2⟩ := hAz r hr
    have hfr : Int.fdiv r.z pz = m := (fdiv_eq_iff_bounds hpz).mpr ⟨by omega, by omega⟩
    have hfq := recCells_slab hpz (hAal r hr) hqr
    rw [hfr] at hfq
    have := (fdiv_eq_iff_bounds hpz).mp hfq
    omega
  have hBcell : ∀ q ∈ B.flatMap recCells, z + pz ≤ q.1.2.2 := by
    intro q hq
    obtain ⟨r, hr, hqr⟩ := List.mem_flatMap.mp hq
    obtain ⟨cx, cy, cz, rfl, h1, h2, h3, h4, h5, h6⟩ := mem_recCells.mp hqr
    have := hBz r hr
    dsimp only
    omega
  have hzmin1 : z ≤ min (z + pz) zc := by omega
  have hzmin2 : min (z + pz) zc ≤ zc := by omega
  have hsplit : (gridCells xc yc z zc).map (fun c => (c, D c)) =
      (gridCells xc yc z (min (z + pz) zc)).map (fun c => (c, D c)) ++
      (gridCells xc yc (min (z + pz) zc) zc).map (fun c => (c, D c)) := by
    rw [gridCells_append hzmin1 hzmin2, List.map_append]
  have hlow : ∀ q ∈ (gridCells xc yc z (min (z + pz) zc)).map
      (fun c => (c, D c)), q.1.2.2 < z + pz := by
    intro q hq
    obtain ⟨c, hc, rfl⟩ := List.mem_map.mp hq
    have := mem_gridCells.mp hc
    dsimp only
    omega
  have hhigh : ∀ q ∈ (gridCells xc yc (min (z + pz) zc) zc).map
      (fun c => (c, D c)), ¬ q.1.2.2 < z + pz := by
    intro q hq
    obtain ⟨c, hc, rfl⟩ := List.mem_map.mp hq
    have := mem_gridCells.mp hc
    dsimp only
    omega
  constructor
  · have hp := hcover.filter (fun q => decide (q.1.2.2 < z + pz))
    rw [List.flatMap_append, List.filter_append] at hp
    rw [List.filter_eq_self.mpr (fun q hq => by simp [(hAcell q hq).2])] at hp
    rw [List.filter_eq_nil_iff.mpr (fun q hq => by simp; have := hBcell q hq; omega)] at hp
    rw [List.append_nil] at hp
    rw [hsplit, List.filter_append] at hp
    rw [List.filter_eq_self.mpr (fun q hq => by simp [hlow q hq])] at hp
    rw [List.filter_eq_nil_iff.mpr (fun q hq => by simp; have := hhigh q hq; omega)] at hp
    rw [List.append_nil] at hp
    exact hp
  · have hp := hcover.filter (fun q => decide (z + pz ≤ q.1.2.2))
    rw [List.flatMap_append, List.filter_append] at hp
    rw [List.filter_eq_nil_iff.mpr
      (fun q hq => by simp; have := (hAcell q hq).2; omega)] at hp
    rw [List.filter_eq_self.mpr (fun q hq => by simp [hBcell q hq])] at hp
    rw [List.nil_append] at hp
    rw [hsplit, List.filter_append] at hp
    rw [List.filter_eq_nil_iff.mpr (fun q hq => by simp; have := hlow q hq; omega)] at hp
    rw [List.filter_eq_self.mpr
      (fun q hq => by simp; have := hhigh q hq; omega)] at hp
    rw [List.nil_append] at hp
    exact hp

theorem fdiv_mul_le_self {pz a : Int} (hpz : 0 < pz) {k : Int}
    (h : k ≤ Int.fdiv a pz) : k * pz ≤ a := by
  have hb := (fdiv_eq_iff_bounds hpz).mp (rfl : Int.fdiv a pz = Int.fdiv a pz)
  have := mul_le_mul_of_nonneg_right h (le_of_lt hpz)
  omega

theorem le_fdiv_of_mul_le {pz a k : Int} (hpz : 0 < pz) (h : k * pz ≤ a) :
    k ≤ Int.fdiv a pz := by
  have hb := (fdiv_eq_iff_bounds hpz).mp (rfl : Int.fdiv a pz = Int.fdiv a pz)
  by_contra hlt
  push_neg at hlt
  have := mul_le_mul_of_nonneg_right (by omega : Int.fdiv a pz + 1 ≤ k) (le_of_lt hpz)
  omega

/-- The slab walk: a candidate stream of positive-size, parent-aligned
records in non-decreasing slab order that exactly covers the grid cells from
slab start `z` onward, matched against a reference stream enumerating those
cells in `(z, y, x)` order, drives the chunk loop to success, counting one
block per record. -/
theorem runChunks_covers {px py pz xc yc zc : Int} {D : Int × Int × Int → String}
    (hpx : 0 < px) (hpy : 0 < py) (hpz : 0 < pz) (hxc : 0 < xc) (hyc : 0 < yc)
    (z : Int) (hz0 : 0 ≤ z) (hdvd : pz ∣ z) (hzlt : z < zc)
    (crecs : List Rec) (l0 : String) (lc0 lastEnd cnt lc1 : Nat)
    (f2 f1 : List ReadEvent)
    (hsz : ∀ r ∈ crecs, 1 ≤ r.sx ∧ 1 ≤ r.sy ∧ 1 ≤ r.sz)
    (hnc : ∀ r ∈ crecs, noCross px py pz r)
    (hge : ∀ r ∈ crecs, z ≤ r.z)
    (hsort : List.Pairwise (fun a b => Int.fdiv a.z pz ≤ Int.fdiv b.z pz) crecs)
    (hcover : (crecs.flatMap recCells).Perm
      ((gridCells xc yc z zc).map (fun c => (c, D c))))
    (hpend : PendRep px py pz l0 f2 crecs)
    (hrep1 : Represents 1 1 1 f1 ((gridCells xc yc z zc).map (unitRec D))) :
    ∃ st1 f1A lc1A,
      runChunks px py pz (rangeList z zc pz) ⟨l0, lc0, f2, lastEnd, cnt⟩ f1 lc1 =
        .ok (st1, f1A, lc1A) ∧
      st1.block_count_f2 = cnt + crecs.length := by
  have hcell0 : ((0, 0, z), D (0, 0, z)) ∈
      (gridCells xc yc z zc).map (fun c => (c, D c)) :=
    List.mem_map_of_mem _ (mem_gridCells.mpr (by dsimp only; omega))
  have hcrecs_ne : crecs ≠ [] := by
    intro hnil
    rw [hnil] at hcover
    have := (List.perm_nil.mp hcover.symm)
    rw [this] at hcell0
    cases hcell0
  have hAB : crecs.takeWhile (fun r => decide (r.z < z + pz)) ++
      crecs.dropWhile (fun r => decide (r.z < z + pz)) = crecs :=
    List.takeWhile_append_dropWhile _ crecs
  have hAmem : ∀ r ∈ crecs.takeWhile (fun r => decide (r.z < z + pz)), r ∈ crecs :=
    fun r hr => (List.takeWhile_sublist _).mem hr
  have hBmem : ∀ r ∈ crecs.dropWhile (fun r => decide (r.z < z + pz)), r ∈ crecs :=
    fun r hr => (List.dropWhile_sublist _).mem hr
  have hA3 : ∀ r ∈ crecs.takeWhile (fun r => decide (r.z < z + pz)),
      noCross px py pz r ∧ z ≤ r.z ∧ r.z < z + pz := by
    intro r hr
    have hp := List.mem_takeWhile_imp hr
    simp only [decide_eq_true_eq] at hp
    exact ⟨hnc r (hAmem r hr), hge r (hAmem r hr), hp⟩
  have hBge : ∀ r ∈ crecs.dropWhile (fun r => decide (r.z < z + pz)), z + pz ≤ r.z := by
    obtain ⟨m, hm⟩ := hdvd
    have hmz : m * pz = z := by rw [hm]; ring
    have hmz1 : (m + 1) * pz = z + pz := by rw [add_mul, one_mul, hmz]
    cases hB : crecs.dropWhile (fun r => decide (r.z < z + pz)) with
    | nil => simp
    | cons rB B2 =>
      have hheadp := List.head?_dropWhile_not (fun r => decide (r.z < z + pz)) crecs
      rw [hB] at hheadp
      simp only [List.head?_cons, decide_eq_false_iff_not, not_lt] at hheadp
      have hfB : m + 1 ≤ Int.fdiv rB.z pz := le_fdiv_of_mul_le hpz (by omega)
      intro r hr
      have hsortB : List.Pairwise (fun a b => Int.fdiv a.z pz ≤ Int.fdiv b.z pz)
          (rB :: B2) := by
        rw [← hB]
        exact hsort.sublist (List.dropWhile_sublist _)
      rcases List.mem_cons.mp hr with rfl | hr2
      · omega
      · have hle : Int.fdiv rB.z pz ≤ Int.fdiv r.z pz :=
          (List.pairwise_cons.mp hsortB).1 r hr2
        have := fdiv_mul_le_self hpz (by omega : m + 1 ≤ Int.fdiv r.z pz)
        omega
  obtain ⟨st1, chunkOut, hloop, hmap, hcnt, hpend3⟩ :=
    chunkLoop_slab hpx hpy hpz z
      (crecs.takeWhile (fun r => decide (r.z < z + pz)))
      (crecs.dropWhile (fun r => decide (r.z < z + pz)))
      l0 lc0 lastEnd cnt f2 [] hA3
      (by
        intro rB hrB
        cases hB : crecs.dropWhile (fun r => decide (r.z < z + pz)) with
        | nil => rw [hB] at hrB; cases hrB
        | cons rBh B2 =>
          rw [hB] at hrB
          simp only [List.head?_cons, Option.mem_def, Option.some.injEq] at hrB
          subst hrB
          exact ⟨hnc rBh (hBmem rBh (by rw [hB]; simp)),
            hBge rBh (by rw [hB]; simp)⟩)
      (by rw [hAB]; exact hpend)
      (by rw [hAB]; exact hcrecs_ne)
  rw [List.map_nil, List.nil_append] at hmap
  obtain ⟨hpermA, hpermB⟩ :=
    cover_split hpz hdvd hzlt (fun r hr => (hA3 r hr).2)
      (fun r hr => ((hA3 r hr).1).2.2) hBge (by rw [hAB]; exact hcover)
  have hzmin1 : z ≤ min (z + pz) zc := by omega
  have hzmin2 : min (z + pz) zc ≤ zc := by omega
  have hforall : List.Forall₂ subMatches (sortChunk chunkOut)
      ((gridCells xc yc z (min (z + pz) zc)).map (unitRec D)) := by
    apply sorted_chunk_agree (gridCells_sorted _ _ _ _)
    rw [hmap]
    exact hpermA
  rw [gridCells_append hzmin1 hzmin2, List.map_append] at hrep1
  obtain ⟨f1A, lc1A, hchk, hrep2⟩ :=
    @checkChunk_of_agree (sortChunk chunkOut)
      ((gridCells xc yc z (min (z + pz) zc)).map (unitRec D))
      ((gridCells xc yc (min (z + pz) zc) zc).map (unitRec D)) f1 lc1 hrep1 hforall
  rw [rangeList_step hpz, if_pos hzlt]
  by_cases hend : z + pz < zc
  · have hminEq : min (z + pz) zc = z + pz := by omega
    rw [hminEq] at hpermB hrep2
    obtain ⟨st2, f1B, lc1B, hrun2, hcnt2⟩ :=
      runChunks_covers hpx hpy hpz hxc hyc (z + pz) (by omega)
        (by exact Dvd.dvd.add hdvd (dvd_refl pz)) hend
        (crecs.dropWhile (fun r => decide (r.z < z + pz)))
        st1.line_f2 st1.line_count_f2 st1.line_count_f2_last_chunk_end
        st1.block_count_f2 lc1A st1.file2 f1A
        (fun r hr => hsz r (hBmem r hr))
        (fun r hr => hnc r (hBmem r hr))
        hBge
        (hsort.sublist (List.dropWhile_sublist _))
        hpermB hpend3 hrep2
    refine ⟨st2, f1B, lc1B, ?_, ?_⟩
    · rw [runChunks, hloop]
      dsimp only
      rw [hchk]
      exact hrun2
    · rw [hcnt2, hcnt]
      have hlen : (crecs.takeWhile (fun r => decide (r.z < z + pz))).length +
          (crecs.dropWhile (fun r => decide (r.z < z + pz))).length = crecs.length := by
        rw [← List.length_append, hAB]
      omega
  · have hminEq : min (z + pz) zc = zc := by omega
    rw [hminEq] at hpermB
    have hBnil : crecs.dropWhile (fun r => decide (r.z < z + pz)) = [] := by
      have hcells : (gridCells xc yc zc zc).map (fun c => (c, D c)) = [] := by
        have : gridCells xc yc zc zc = [] := by
          unfold gridCells intRange
          simp
        rw [this, List.map_nil]
      rw [hcells] at hpermB
      have hflat := List.perm_nil.mp hpermB
      cases hB : crecs.dropWhile (fun r => decide (r.z < z + pz)) with
      | nil => rfl
      | cons rB B2 =>
        exfalso
        rw [hB, List.flatMap_cons] at hflat
        obtain ⟨hs1, hs2, hs3⟩ := hsz rB (hBmem rB (by rw [hB]; simp))
        exact recCells_ne_nil hs1 hs2 hs3 (by
          rcases List.append_eq_nil.mp hflat with ⟨h1, _⟩
          exact h1)
    have hrange : rangeList (z + pz) zc pz = [] := by
      rw [rangeList_step hpz, if_neg hend]
    refine ⟨st1, f1A, lc1A, ?_, ?_⟩
    · rw [runChunks, hloop]
      dsimp only
      rw [hchk]
      dsimp only
      rw [hrange, runChunks]
    · rw [hcnt]
      have hlen : (crecs.takeWhile (fun r => decide (r.z < z + pz))).length +
          (crecs.dropWhile (fun r => decide (r.z < z + pz))).length = crecs.length := by
        rw [← List.length_append, hAB]
      rw [hBnil] at hlen
      simp at hlen
      omega
termination_by (zc - z).toNat
decreasing_by
  omega

/-- Claim C1, amended: for every valid reference/candidate pair encoding the
same set of unit cells in which every candidate merged block record has all
three sizes at least 1, the validator succeeds and reports the compression
value `(reference_block_count - candidate_block_count) / reference_block_count`
with `candidate_block_count` incremented once per merged record consumed, and
this value lies in `[0, 1)`.  Without the size proviso the claimed range fails
(see the counterexample): zero-size records add no cells yet are counted. -/
theorem C1_same_cells_compression {px py pz xc yc zc : Int}
    {D : Int × Int × Int → String} {file1 file2 f1 : List ReadEvent}
    {crecs : List Rec}
    (hhead : get_header_info_of_file1 file1 1 = .ok ([xc, yc, zc, px, py, pz], f1))
    (hpx : 0 < px) (hpy : 0 < py) (hpz : 0 < pz)
    (hxc : 0 < xc) (hyc : 0 < yc) (hzc : 0 < zc)
    (hsz : ∀ r ∈ crecs, 1 ≤ r.sx ∧ 1 ≤ r.sy ∧ 1 ≤ r.sz)
    (hnc : ∀ r ∈ crecs, noCross px py pz r)
    (hge : ∀ r ∈ crecs, 0 ≤ r.z)
    (hsort : List.Pairwise (fun a b => Int.fdiv a.z pz ≤ Int.fdiv b.z pz) crecs)
    (hcover : (crecs.flatMap recCells).Perm
      ((gridCells xc yc 0 zc).map (fun c => (c, D c))))
    (hrep2 : Represents px py pz file2 crecs)
    (hrep1 : Represents 1 1 1 f1 ((gridCells xc yc 0 zc).map (unitRec D))) :
    runCore file1 file2 =
      .ok (((xc * yc * zc - (crecs.length : Int) : Int) : Rat) /
        ((xc * yc * zc : Int) : Rat)) ∧
    (0 : Rat) ≤ ((xc * yc * zc - (crecs.length : Int) : Int) : Rat) /
        ((xc * yc * zc : Int) : Rat) ∧
    ((xc * yc * zc - (crecs.length : Int) : Int) : Rat) /
        ((xc * yc * zc : Int) : Rat) < 1 := by
  have hcell0 : ((0, 0, 0), D (0, 0, 0)) ∈
      (gridCells xc yc 0 zc).map (fun c => (c, D c)) :=
    List.mem_map_of_mem _ (mem_gridCells.mpr (by dsimp only; omega))
  have hcrecs_ne : crecs ≠ [] := by
    intro hnil
    rw [hnil] at hcover
    have hmt := List.perm_nil.mp hcover.symm
    rw [hmt] at hcell0
    cases hcell0
  have hLpos : 0 < crecs.length := List.length_pos.mpr hcrecs_ne
  have hflat_ne : ∀ r ∈ crecs, recCells r ≠ [] := fun r hr =>
    recCells_ne_nil (hsz r hr).1 (hsz r hr).2.1 (hsz r hr).2.2
  have h1 : crecs.length ≤ (crecs.flatMap recCells).length :=
    length_le_length_flatMap hflat_ne
  have h2 : (crecs.flatMap recCells).length = (gridCells xc yc 0 zc).length := by
    rw [hcover.length_eq, List.length_map]
  have h3 : (((gridCells xc yc 0 zc).length : Nat) : Int) =
      ((zc - 0).toNat : Int) * (yc * xc) :=
    length_gridCells (le_of_lt hxc) (le_of_lt hyc)
  have hIL : (crecs.length : Int) ≤ xc * yc * zc := by
    have h4 : (crecs.length : Int) ≤ ((gridCells xc yc 0 zc).length : Int) := by
      have h5 := h1
      rw [h2] at h5
      exact_mod_cast h5
    rw [h3, Int.toNat_of_nonneg (by omega : (0 : Int) ≤ zc - 0)] at h4
    have h6 : (zc - 0) * (yc * xc) = xc * yc * zc := by ring
    rw [h6] at h4
    exact h4
  have hNpos : (0 : Int) < xc * yc * zc := mul_pos (mul_pos hxc hyc) hzc
  have hN0 : ¬ (xc * yc * zc = 0) := by omega
  have hNQ : (0 : Rat) < ((xc * yc * zc : Int) : Rat) := by exact_mod_cast hNpos
  obtain ⟨r0, rs0, hcr⟩ := List.exists_cons_of_ne_nil hcrecs_ne
  have hrep2a : Represents px py pz file2 (r0 :: rs0) := hcr ▸ hrep2
  obtain ⟨l, n1, f2a, hread, hl, hparse, hrepa⟩ := represents_cons_read hrep2a 0
  have hpend : PendRep px py pz l f2a crecs := by
    rw [hcr]
    exact ⟨hl, hparse, hrepa⟩
  obtain ⟨st1, f1A, lc1A, hrun, hcnt⟩ :=
    runChunks_covers hpx hpy hpz hxc hyc 0 (le_refl 0) (dvd_zero pz) hzc
      crecs l n1 0 0 1 f2a f1 hsz hnc hge hsort hcover hpend hrep1
  refine ⟨?_, ?_, ?_⟩
  · unfold runCore
    rw [hhead]
    dsimp only
    rw [hread]
    dsimp only
    rw [if_neg hl, if_neg (show ¬ (pz = 0) by omega)]
    rw [hrun]
    dsimp only
    rw [if_neg hN0, hcnt, Nat.zero_add]
  · apply div_nonneg ?_ (le_of_lt hNQ)
    exact_mod_cast (by omega : (0 : Int) ≤ xc * yc * zc - (crecs.length : Int))
  · rw [div_lt_one hNQ]
    exact_mod_cast (by omega : xc * yc * zc - (crecs.length : Int) < xc * yc * zc)

/-- Witness for C1 at a concrete identity pair: a 1-cell grid whose single
candidate record is its own unit block; the reported compression is 0. -/
theorem C1_same_cells_compression_witness :
    runCore [ReadEvent.line "# 1,1,1,1,1,1\n", ReadEvent.line "0,0,0,1,1,1,a\n"]
        [ReadEvent.line "0,0,0,1,1,1,a\n"] =
      .ok (((1 * 1 * 1 - (1 : Int) : Int) : Rat) / ((1 * 1 * 1 : Int) : Rat)) ∧
    (0 : Rat) ≤ ((1 * 1 * 1 - (1 : Int) : Int) : Rat) / ((1 * 1 * 1 : Int) : Rat) ∧
    ((1 * 1 * 1 - (1 : Int) : Int) : Rat) / ((1 * 1 * 1 : Int) : Rat) < 1 := by
  have hcover : (([(⟨0, 0, 0, 1, 1, 1, "a"⟩ : Rec)]).flatMap recCells).Perm
      ((gridCells 1 1 0 1).map
        (fun c => (c, (fun _ : Int × Int × Int => "a") c))) := by decide
  have hrep2 : Represents 1 1 1 [ReadEvent.line "0,0,0,1,1,1,a\n"]
      [(⟨0, 0, 0, 1, 1, 1, "a"⟩ : Rec)] :=
    Represents.data _ _ _ _ (by decide) (by rfl) (fun lc => rfl) Represents.nil
  have hrep1 : Represents 1 1 1 [ReadEvent.line "0,0,0,1,1,1,a\n"]
      ((gridCells 1 1 0 1).map (unitRec (fun _ : Int × Int × Int => "a"))) := by
    have hc : (gridCells 1 1 0 1).map (unitRec (fun _ : Int × Int × Int => "a")) =
        [(⟨0, 0, 0, 1, 1, 1, "a"⟩ : Rec)] := by decide
    rw [hc]
    exact Represents.data _ _ _ _ (by decide) (by rfl) (fun lc => rfl) Represents.nil
  exact @C1_same_cells_compression 1 1 1 1 1 1 (fun _ => "a")
    [ReadEvent.line "# 1,1,1,1,1,1\n", ReadEvent.line "0,0,0,1,1,1,a\n"]
    [ReadEvent.line "0,0,0,1,1,1,a\n"]
    [ReadEvent.line "0,0,0,1,1,1,a\n"]
    [(⟨0, 0, 0, 1, 1, 1, "a"⟩ : Rec)]
    (by rfl) (by decide) (by decide) (by decide) (by decide) (by decide) (by decide)
    (by
      intro r hr
      rw [List.mem_singleton] at hr
      subst hr
      exact ⟨by decide, by decide, by decide⟩)
    (by
      intro r hr
      rw [List.mem_singleton] at hr
      subst hr
      exact ⟨by decide, by decide, by decide⟩)
    (by
      intro r hr
      rw [List.mem_singleton] at hr
      subst hr
      decide)
    (by simp)
    hcover hrep2 hrep1
